import Mathlib

/-!
# Audio visualizer (`viz.cpp`): log-frequency bucketer, audio callback, bar display

A shallow embedding of `logspace`, `SongData`, `audioCallback` and `BarVizualizer`.

Conventions of the embedding.

* `double` values are elements of a linear ordered field `α` with a floor function (the
  finite doubles are rational numbers); the operators `+ - * /` on doubles are the exact
  field operations.
* The conversions of the language are defined here: `toInt` is the conversion of a `double`
  to a 32-bit `int`, `toFloat` the conversion of a `double` to the IEEE single-precision
  `float` of the output buffer.
* The functions of `<math.h>` (`log10`, `pow`, `sqrt`) and the real-to-complex transform of
  the FFTW library are external to the program; they are the fields of `Extern`, and the
  theorems hold for every `Extern` unless they name `Extern.real`, which supplies the
  exact mathematical functions over `ℝ`.
* A channel pointer (`double*`) is the total function `Int → α` giving the content of the
  cell at each offset from the pointer; cells at offsets `0 .. totalFrames - 1` hold the
  track.  Every dereference made by the sample-emission loop is appended to a trace, so that
  "reads inside the track" is a property of the trace.
* `int`, `long int` and `unsigned long` counters are mathematical integers; the embedding
  covers the runs in which they stay inside their machine ranges.
-/

namespace Viz

/-! ## Constants -/

/-- Constant `#define FRAMES_PER_BUFFER 2048` -/
def FRAMES_PER_BUFFER : Nat := 2048

/-- Constant `#define DOUBLE_AUDIBLE_BAND 44100` -/
def DOUBLE_AUDIBLE_BAND : Nat := 44100

/-- Constant `#define FFT_OUT_LENGTH 44100/2 + 1`; every use site expands to the value `22051` -/
def FFT_OUT_LENGTH : Nat := 44100 / 2 + 1

/-- Constant `#define REQUESTED_NUMBER_OF_POINTS 100` -/
def REQUESTED_NUMBER_OF_POINTS : Nat := 100

/-- Constant `#define SCREEN_WIDTH 1920` -/
def SCREEN_WIDTH : Nat := 1920

/-- Constant `#define SCREEN_HEIGHT 1080` -/
def SCREEN_HEIGHT : Nat := 1080

/-! ## External functions -/

/-- The library functions the program calls: `log10`, `pow`, `sqrt` of `<math.h>`, and the
coefficient `k` of `fftw_plan_dft_r2c_1d n` executed on the window `j ↦ in[j]`. -/
structure Extern (α : Type) where
  log10 : α → α
  pow : α → α → α
  sqrt : α → α
  r2c : Nat → (Nat → α) → Nat → α × α

/-- The exact real-number meaning of the external functions: base-10 logarithm, real power,
square root, and the discrete Fourier transform `Y k = ∑ j < n, X j * exp (-2πi j k / n)`.
`log10` is the real logarithm on positive arguments only. -/
noncomputable def Extern.real : Extern ℝ where
  log10 := fun x => Real.logb 10 x
  pow := fun b e => b ^ e
  sqrt := fun x => Real.sqrt x
  r2c := fun n x k =>
    (∑ j in Finset.range n, x j * Real.cos (2 * Real.pi * j * k / n),
     -∑ j in Finset.range n, x j * Real.sin (2 * Real.pi * j * k / n))

/-- A value of the type `float`: a finite number, or an infinity with its sign -/
inductive FloatValue (α : Type) where
  | finite (x : α)
  | overflow (negative : Bool)

section Defs

variable {α : Type} [LinearOrderedField α] [FloorRing α]

/-- Conversion of a `double` to the 32-bit `int`: truncation toward zero when the truncated
value is an `int`, that is for `-2^31 - 1 < x < 2^31`.  Outside that range the conversion is
undefined in C++; the model stores `INT_MIN = -2^31`, the value the x86-64 conversion
instruction produces. -/
def toInt (x : α) : Int :=
  if -2147483649 < x ∧ x < 2147483648 then (if 0 ≤ x then ⌊x⌋ else ⌈x⌉) else -2147483648

/-- Rounding to the nearest integer, a tie going to the even neighbour -/
def roundHalfEven (x : α) : Int :=
  if x - (⌊x⌋ : α) < 1 / 2 then ⌊x⌋
  else if 1 / 2 < x - (⌊x⌋ : α) then ⌊x⌋ + 1
  else if ⌊x⌋ % 2 = 0 then ⌊x⌋ else ⌊x⌋ + 1

/-- Conversion of a `double` to `float` (IEEE 754 single precision, round to nearest, ties
to even): a `float` is a multiple of `2 ^ (e - 23)`, where `2 ^ e ≤ |x| < 2 ^ (e + 1)` and
`e` is not taken below `-126`; a result of magnitude `2 ^ 128` or more is an infinity. -/
def toFloat (x : α) : FloatValue α :=
  if (2 : α) ^ 128 ≤ |(roundHalfEven (x / (2 : α) ^ (max (Int.log 2 |x|) (-126) - 23)) : α)
      * (2 : α) ^ (max (Int.log 2 |x|) (-126) - 23)| then
    FloatValue.overflow (decide (x < 0))
  else
    FloatValue.finite ((roundHalfEven (x / (2 : α) ^ (max (Int.log 2 |x|) (-126) - 23)) : α)
      * (2 : α) ^ (max (Int.log 2 |x|) (-126) - 23))

/-- Function `double ampTodB(double A)` -/
def ampTodB (m : Extern α) (A : α) : α := 20 * m.log10 A

/-- Function `double magnitude(fftw_complex c)` -/
def magnitude (m : Extern α) (c : α × α) : α := m.sqrt (m.pow c.1 2 + m.pow c.2 2)

/-! ## `logspace` -/

/-- The loop `for (int i = 0; i < n; i++) v[i] = f i;` over a vector `v` -/
def fillLoop {β : Type} (f : Nat → β) (n : Nat) (v : List β) : List β :=
  (List.range n).foldl (fun w i => w.set i (f i)) v

/-- The scan of `std::unique` after the first kept element: `last` is the element most
recently kept, an element equal to it is dropped, any other is kept and becomes `last` -/
def uniqueAux {β : Type} [DecidableEq β] (last : β) : List β → List β
  | [] => []
  | b :: t => if last = b then uniqueAux last t else b :: uniqueAux b t

/-- Statement `v.erase(unique(v.begin(), v.end()), v.end())`: of every run of consecutive equal
elements only the first is kept -/
def unique {β : Type} [DecidableEq β] : List β → List β
  | [] => []
  | a :: t => a :: uniqueAux a t

/-- The value stored in `res[i]` by `logspace`: `start * pow(10, i*step)` converted to `int` -/
def logspaceEntry (m : Extern α) (start step : α) (i : Nat) : Int :=
  toInt (start * m.pow 10 ((i : α) * step))

/-- The `step` of `logspace`: `(log10(stop) - log10(start)) / (num - 1)` -/
def logspaceStep (m : Extern α) (start stop : α) (num : Nat) : α :=
  (m.log10 stop - m.log10 start) / (((num : Int) - 1 : Int) : α)

/-- The vector `res` of `logspace` after its loop, before the duplicates are erased -/
def logspaceRaw (m : Extern α) (start stop : α) (num : Nat) : List Int :=
  fillLoop (logspaceEntry m start (logspaceStep m start stop num)) num (List.replicate num 0)

/-- Function `std::vector<int> logspace(double start, double stop, int num)` for `num ≥ 0` -/
def logspace (m : Extern α) (start stop : α) (num : Nat) : List Int :=
  unique (logspaceRaw m start stop num)

/-! ## `SongData` and `audioCallback` -/

/-- The struct `SongData`.  `leftChannel` and `rightChannel` give the cell at each offset
from the channel pointer; `fftOutLeft` and `fftOutRight` are the two coefficient arrays. -/
structure SongData (α : Type) where
  leftChannel : Int → α
  rightChannel : Int → α
  totalFrames : Int
  lastFrame : Int
  soundLevel : α
  levels : List α
  fftOutLeft : List (α × α)
  fftOutRight : List (α × α)

/-- The constructor `SongData(double* l, double* r, long int t)`.  The two coefficient arrays
are not initialised by the constructor; `outL` and `outR` are whatever they hold. -/
def SongData.new (l r : Int → α) (t : Int) (outL outR : List (α × α)) : SongData α where
  leftChannel := l
  rightChannel := r
  totalFrames := t
  lastFrame := 0
  soundLevel := 0
  levels := List.replicate FFT_OUT_LENGTH 0
  fftOutLeft := outL
  fftOutRight := outR

/-- The analysis offset `fftIdx` chosen at the start of `audioCallback` -/
def fftIdx (song : SongData α) : Int :=
  if song.totalFrames - song.lastFrame < 44100 then 44100 else song.lastFrame

/-- The array written by `fftw_execute` for a plan made by
`fftw_plan_dft_r2c_1d(DOUBLE_AUDIBLE_BAND, &channel[idx], out, FFTW_ESTIMATE)` -/
def fftwExecute (m : Extern α) (channel : Int → α) (idx : Int) : List (α × α) :=
  (List.range FFT_OUT_LENGTH).map
    (m.r2c DOUBLE_AUDIBLE_BAND (fun j => channel (idx + (j : Int))))

/-- The value stored in `song->levels[i]` by the first loop of `audioCallback` -/
def levelEntry (m : Extern α) (outL outR : List (α × α)) (i : Nat) : α :=
  (ampTodB m (magnitude m (outL.getD i (0, 0))) + ampTodB m (magnitude m (outR.getD i (0, 0)))) / 2

/-- The variables the sample-emission loop of `audioCallback` changes: the samples written
through `out` so far, the offsets at which the channels were dereferenced so far, the running
`sum`, and the cursor `song->lastFrame` -/
structure Emission (α : Type) where
  out : List (FloatValue α)
  reads : List Int
  sum : α
  lastFrame : Int

/-- One iteration of the sample-emission loop: the two writes through the `float*` `out`
(each converts the `double` sample to `float`), the statement
`sum += abs((left[lastFrame]) + abs(right[lastFrame]))/2` (both `abs` are the overload
for `double`), and `song->lastFrame += 1` -/
def emitStep (l r : Int → α) (e : Emission α) : Emission α where
  out := e.out ++ [toFloat (l e.lastFrame), toFloat (r e.lastFrame)]
  reads := e.reads ++ [e.lastFrame]
  sum := e.sum + abs (l e.lastFrame + abs (r e.lastFrame)) / 2
  lastFrame := e.lastFrame + 1

/-- The loop `for (int i = 0; i < framesPerBuffer; i++)` of `audioCallback` -/
def emitLoop (l r : Int → α) : Nat → Emission α → Emission α
  | 0, e => e
  | k + 1, e => emitLoop l r k (emitStep l r e)

/-- What one invocation of `audioCallback` produces: the updated `SongData`, the content of
the output buffer, the offsets at which the emission loop dereferenced the channels, the
analysis offset, and the returned status -/
structure CallbackResult (α : Type) where
  song : SongData α
  out : List (FloatValue α)
  reads : List Int
  fftIdx : Int
  status : Int

/-- The function `audioCallback` with `userData = song` -/
def audioCallback (m : Extern α) (song : SongData α) (framesPerBuffer : Nat) :
    CallbackResult α :=
  let idx := fftIdx song
  let outL := fftwExecute m song.leftChannel idx
  let outR := fftwExecute m song.rightChannel idx
  let levels := fillLoop (levelEntry m outL outR) FFT_OUT_LENGTH song.levels
  let e := emitLoop song.leftChannel song.rightChannel framesPerBuffer
    { out := [], reads := [], sum := 0, lastFrame := song.lastFrame }
  { song :=
      { song with
        fftOutLeft := outL
        fftOutRight := outR
        levels := levels
        lastFrame := e.lastFrame
        soundLevel := e.sum / (framesPerBuffer : α) }
    out := e.out
    reads := e.reads
    fftIdx := idx
    status := 0 }

/-- The state after a sequence of invocations, one per element of `buffers` (the
`framesPerBuffer` of each invocation) -/
def runCallbacks (m : Extern α) (song : SongData α) (buffers : List Nat) : SongData α :=
  buffers.foldl (fun s n => (audioCallback m s n).song) song

/-- The amplitude the specification asks for: the arithmetic mean over the `n` frames from
the cursor `c` of `(|left| + |right|) / 2` -/
def meanAbsAmplitude (l r : Int → α) (c : Int) (n : Nat) : α :=
  ((List.range n).map (fun (i : Nat) => (abs (l (c + (i : Int))) + abs (r (c + (i : Int)))) / 2)).sum / (n : α)

/-! ## `BarVizualizer` -/

/-- The size and origin of an `sf::RectangleShape` -/
structure RectangleShape (α : Type) where
  size : α × α
  origin : α × α

/-- The fields of `BarVizualizer` that its methods read and write.  `numBars` is a `double`
that holds the integer it was constructed with. -/
structure BarVizualizer (α : Type) where
  bars : List (RectangleShape α)
  heights : List α
  barWidth : α
  numBars : Nat

/-- The constructor `BarVizualizer(win, n, width, screenHeight)` -/
def BarVizualizer.new (n : Nat) (width : α) (screenHeight : Int) : BarVizualizer α where
  bars := fillLoop
    (fun i => { size := (width, 0), origin := (-width * (i : α), -(screenHeight : α)) })
    n (List.replicate n { size := (0, 0), origin := (0, 0) })
  heights := List.replicate n 0
  barWidth := width
  numBars := n

/-- One iteration of the loop of `setHeights`, with every subscript checked: `none` when
`bars[i]`, `indices[i]` or `levels[indices[i]]` is outside its vector -/
def setHeightsStep (indices : List Int) (levels : List α)
    (bars : List (RectangleShape α)) (i : Nat) : Option (List (RectangleShape α)) := do
  let bar ← bars[i]?
  let idx ← indices[i]?
  let lvl ← if 0 ≤ idx then levels[idx.toNat]? else none
  pure (bars.set i { bar with size := (bar.size.1, -lvl * 5) })

/-- The method `setHeights(indices, levels)`: `some` of the updated object when every
subscript of the loop is inside its vector, `none` otherwise -/
def BarVizualizer.setHeights (viz : BarVizualizer α) (indices : List Int) (levels : List α) :
    Option (BarVizualizer α) :=
  ((List.range viz.numBars).foldlM (setHeightsStep indices levels) viz.bars).map
    (fun b => { viz with bars := b })

/-- The bucket map built in `main`: `logspace(20, 20000, REQUESTED_NUMBER_OF_POINTS)` -/
def logLinearIndices (m : Extern α) : List Int :=
  logspace m 20 20000 REQUESTED_NUMBER_OF_POINTS

/-- The bar display built in `main`: `numBars = logLinearIndices.size()`,
`barWidth = SCREEN_WIDTH / numBars` (integer division) -/
def mainViz (m : Extern α) : BarVizualizer α :=
  BarVizualizer.new (logLinearIndices m).length
    (((SCREEN_WIDTH / (logLinearIndices m).length : Nat) : α)) SCREEN_HEIGHT

/-! ## Concrete inputs -/

/-- A freshly constructed track of `100352 = 49 * 2048` frames whose left samples are all
`-1.0` and whose right samples are all `+1.0` (cells outside the track read the same) -/
def constantTrack (α : Type) [LinearOrderedField α] : SongData α :=
  SongData.new (fun _ => -1) (fun _ => 1) 100352
    (List.replicate FFT_OUT_LENGTH (0, 0)) (List.replicate FFT_OUT_LENGTH (0, 0))

/-- The track of `constantTrack` with the cursor at its end, the state that `49` invocations
with `framesPerBuffer = 2048` lead to -/
def constantTrackAtEnd (α : Type) [LinearOrderedField α] : SongData α :=
  { constantTrack α with lastFrame := 100352 }

/-- The `double` nearest to `0.1` -/
def doubleTenth (α : Type) [LinearOrderedField α] : α := 3602879701896397 / 36028797018963968

/-- A freshly constructed track of `100352` frames whose samples are all the `double` `0.1` -/
def tenthTrack (α : Type) [LinearOrderedField α] : SongData α :=
  SongData.new (fun _ => doubleTenth α) (fun _ => doubleTenth α) 100352
    (List.replicate FFT_OUT_LENGTH (0, 0)) (List.replicate FFT_OUT_LENGTH (0, 0))

/-- A freshly constructed track of `50000` frames (a little over one second at 44100 Hz),
all samples zero -/
def shortTrack (α : Type) [LinearOrderedField α] : SongData α :=
  SongData.new (fun _ => 0) (fun _ => 0) 50000
    (List.replicate FFT_OUT_LENGTH (0, 0)) (List.replicate FFT_OUT_LENGTH (0, 0))

end Defs


/-! ## Lemmas on the loops -/

set_option linter.unusedSectionVars false

section Lemmas

variable {α : Type} [LinearOrderedField α] [FloorRing α]

theorem fillLoop_succ {β : Type} (f : Nat → β) (n : Nat) (v : List β) :
    fillLoop f (n + 1) v = (fillLoop f n v).set n (f n) := by
  simp [fillLoop, List.range_succ, List.foldl_append]

theorem fillLoop_length {β : Type} (f : Nat → β) (n : Nat) (v : List β) :
    (fillLoop f n v).length = v.length := by
  induction n with
  | zero => simp [fillLoop]
  | succ n ih => rw [fillLoop_succ, List.length_set, ih]

theorem fillLoop_getElem? {β : Type} (f : Nat → β) (n : Nat) (v : List β) (i : Nat) :
    (fillLoop f n v)[i]? = if i < n ∧ i < v.length then some (f i) else v[i]? := by
  induction n with
  | zero => simp [fillLoop]
  | succ n ih =>
    rw [fillLoop_succ, List.getElem?_set, ih, fillLoop_length]
    by_cases h : n = i
    · subst h
      by_cases h2 : n < v.length
      · simp [h2]
      · simp [h2]
        omega
    · simp [h]
      by_cases h3 : i < n
      · have : i < n + 1 := by omega
        simp [h3, this]
      · have : ¬ i < n + 1 := by omega
        simp [h3, this]

/-- A fill loop that runs over the whole vector leaves nothing of its previous content -/
theorem fillLoop_eq_map {β : Type} (f : Nat → β) (v : List β) :
    fillLoop f v.length v = (List.range v.length).map f := by
  apply List.ext_getElem?
  intro i
  rw [fillLoop_getElem?]
  by_cases h : i < v.length
  · simp [h]
  · have h2 : v.length ≤ i := by omega
    have h3 : (List.range v.length).length ≤ i := by simpa using h2
    simp [h, List.getElem?_eq_none h2, List.getElem?_eq_none h3]

theorem fillLoop_eq_map_of_length {β : Type} (f : Nat → β) (n : Nat) (v : List β)
    (h : v.length = n) : fillLoop f n v = (List.range n).map f := by
  subst h
  exact fillLoop_eq_map f v

theorem cons_uniqueAux_eq_destutter' {β : Type} [DecidableEq β] (l : List β) (a : β) :
    a :: uniqueAux a l = List.destutter' (· ≠ ·) a l := by
  induction l generalizing a with
  | nil => simp [uniqueAux]
  | cons b t ih =>
    by_cases h : a = b
    · subst h
      simp [uniqueAux, List.destutter', ih]
    · simp [uniqueAux, List.destutter', h, ih]

theorem unique_eq_destutter {β : Type} [DecidableEq β] (l : List β) :
    unique l = List.destutter (· ≠ ·) l := by
  cases l with
  | nil => simp [unique]
  | cons a t => simp [unique, List.destutter, cons_uniqueAux_eq_destutter']

theorem uniqueAux_length_le {β : Type} [DecidableEq β] (l : List β) (a : β) :
    (uniqueAux a l).length ≤ l.length := by
  induction l generalizing a with
  | nil => simp [uniqueAux]
  | cons b t ih =>
    by_cases h : a = b
    · simp only [uniqueAux, h, if_true, List.length_cons]
      exact Nat.le_succ_of_le (ih b)
    · simp only [uniqueAux, h, if_false, List.length_cons]
      exact Nat.succ_le_succ (ih b)

theorem unique_length_le {β : Type} [DecidableEq β] (l : List β) :
    (unique l).length ≤ l.length := by
  cases l with
  | nil => simp [unique]
  | cons a t => simpa [unique] using uniqueAux_length_le t a

theorem uniqueAux_chain_ne {β : Type} [DecidableEq β] (l : List β) (a : β) :
    List.Chain (· ≠ ·) a (uniqueAux a l) := by
  induction l generalizing a with
  | nil => simp [uniqueAux]
  | cons b t ih =>
    by_cases h : a = b
    · subst h
      simpa [uniqueAux] using ih a
    · simp only [uniqueAux, h, if_false]
      exact List.Chain.cons h (ih b)

theorem unique_chain_ne {β : Type} [DecidableEq β] (l : List β) :
    List.Chain' (· ≠ ·) (unique l) := by
  cases l with
  | nil => simp [unique]
  | cons a t => simpa [unique, List.Chain'] using uniqueAux_chain_ne t a

theorem mem_of_mem_uniqueAux {β : Type} [DecidableEq β] (l : List β) (a x : β)
    (hx : x ∈ uniqueAux a l) : x ∈ l := by
  induction l generalizing a with
  | nil => simp [uniqueAux] at hx
  | cons b t ih =>
    by_cases h : a = b
    · subst h
      simp only [uniqueAux, if_true] at hx
      exact List.mem_cons_of_mem _ (ih a hx)
    · simp only [uniqueAux, h, if_false, List.mem_cons] at hx
      rcases hx with rfl | hx
      · exact List.mem_cons_self _ _
      · exact List.mem_cons_of_mem _ (ih b hx)

theorem mem_of_mem_unique {β : Type} [DecidableEq β] (l : List β) (x : β)
    (hx : x ∈ unique l) : x ∈ l := by
  cases l with
  | nil => simp [unique] at hx
  | cons a t =>
    simp only [unique, List.mem_cons] at hx
    rcases hx with rfl | hx
    · exact List.mem_cons_self _ _
    · exact List.mem_cons_of_mem _ (mem_of_mem_uniqueAux t a x hx)

theorem uniqueAux_of_chain_lt {β : Type} [DecidableEq β] [Preorder β] (l : List β) (a : β)
    (h : List.Chain (· < ·) a l) : uniqueAux a l = l := by
  induction l generalizing a with
  | nil => simp [uniqueAux]
  | cons b t ih =>
    rw [List.chain_cons] at h
    have hne : a ≠ b := ne_of_lt h.1
    simp [uniqueAux, hne, ih b h.2]

/-- A vector that is already strictly increasing loses nothing to `unique` -/
theorem unique_of_chain_lt {β : Type} [DecidableEq β] [Preorder β] (l : List β)
    (h : List.Chain' (· < ·) l) : unique l = l := by
  cases l with
  | nil => simp [unique]
  | cons a t => simp [unique, uniqueAux_of_chain_lt t a h]

theorem uniqueAux_chain_lt (l : List Int) (a : Int)
    (h : List.Chain (· ≤ ·) a l) : List.Chain (· < ·) a (uniqueAux a l) := by
  induction l generalizing a with
  | nil => simp [uniqueAux]
  | cons b t ih =>
    rw [List.chain_cons] at h
    by_cases hab : a = b
    · subst hab
      simpa [uniqueAux] using ih a h.2
    · simp only [uniqueAux, hab, if_false]
      exact List.Chain.cons (lt_of_le_of_ne h.1 hab) (ih b h.2)

/-- A non-decreasing vector becomes strictly increasing once its duplicates are erased -/
theorem unique_chain_lt (l : List Int) (h : List.Chain' (· ≤ ·) l) :
    List.Chain' (· < ·) (unique l) := by
  cases l with
  | nil => simp [unique]
  | cons a t => simpa [unique, List.Chain'] using uniqueAux_chain_lt t a h

/-! ### The conversion to `float` -/

theorem roundHalfEven_intCast (k : Int) : roundHalfEven (k : α) = k := by
  simp [roundHalfEven]

theorem roundHalfEven_of_gt_half (x : α) (f : Int) (h1 : (f : α) + 1 / 2 < x)
    (h2 : x < (f : α) + 1) : roundHalfEven x = f + 1 := by
  have hf : ⌊x⌋ = f := by
    rw [Int.floor_eq_iff]
    constructor <;> linarith
  have hn : ¬ (x - (f : α) < 1 / 2) := by
    intro h
    linarith
  have hp : 1 / 2 < x - (f : α) := by linarith
  simp only [roundHalfEven, hf, hn, hp, if_true, if_false]

/-- The value of `roundHalfEven` is an integer nearest to its argument, and is even when two
integers are equally near -/
theorem roundHalfEven_spec (t : α) :
    |((roundHalfEven t : Int) : α) - t| ≤ 1 / 2
    ∧ (|((roundHalfEven t : Int) : α) - t| = 1 / 2 → roundHalfEven t % 2 = 0) := by
  have hf1 : ((⌊t⌋ : Int) : α) ≤ t := Int.floor_le t
  have hf2 : t < ((⌊t⌋ : Int) : α) + 1 := Int.lt_floor_add_one t
  by_cases h1 : t - ((⌊t⌋ : Int) : α) < 1 / 2
  · have hr : roundHalfEven t = ⌊t⌋ := by simp only [roundHalfEven, h1, if_true]
    rw [hr]
    have habs : |((⌊t⌋ : Int) : α) - t| = t - ((⌊t⌋ : Int) : α) := by
      rw [abs_sub_comm, abs_of_nonneg (by linarith)]
    rw [habs]
    exact ⟨h1.le, fun h => absurd h (ne_of_lt h1)⟩
  · by_cases h2 : 1 / 2 < t - ((⌊t⌋ : Int) : α)
    · have hr : roundHalfEven t = ⌊t⌋ + 1 := by
        simp only [roundHalfEven, h1, h2, if_true, if_false]
      rw [hr]
      have habs : |(((⌊t⌋ + 1 : Int)) : α) - t| = ((⌊t⌋ : Int) : α) + 1 - t := by
        push_cast
        rw [abs_of_nonneg (by linarith)]
      rw [habs]
      exact ⟨by linarith, fun h => absurd h (by intro h3; linarith)⟩
    · have heq : t - ((⌊t⌋ : Int) : α) = 1 / 2 := le_antisymm (not_lt.mp h2) (not_lt.mp h1)
      by_cases h3 : ⌊t⌋ % 2 = 0
      · have hr : roundHalfEven t = ⌊t⌋ := by
          simp only [roundHalfEven, h1, h2, h3, if_true, if_false]
        rw [hr]
        have habs : |((⌊t⌋ : Int) : α) - t| = 1 / 2 := by
          rw [abs_sub_comm, abs_of_nonneg (by linarith), heq]
        rw [habs]
        exact ⟨le_refl _, fun _ => h3⟩
      · have hr : roundHalfEven t = ⌊t⌋ + 1 := by
          simp only [roundHalfEven, h1, h2, h3, if_true, if_false]
        rw [hr]
        have habs : |(((⌊t⌋ + 1 : Int)) : α) - t| = 1 / 2 := by
          push_cast
          rw [abs_of_nonneg (by linarith)]
          linarith
        rw [habs]
        exact ⟨le_refl _, fun _ => by omega⟩

/-- The conversion to `float` written out: with `q = 2 ^ (max ⌊log2 |x|⌋ (-126) - 23)` the
spacing of the `float`s around `x`, the result is `r * q` for an integer `r` nearest to
`x / q` (even on a tie), or an infinity when `|r * q| ≥ 2 ^ 128` -/
theorem toFloat_spec (x : α) :
    ∃ r : Int,
      |(r : α) - x / (2 : α) ^ (max (Int.log 2 |x|) (-126) - 23)| ≤ 1 / 2
      ∧ (|(r : α) - x / (2 : α) ^ (max (Int.log 2 |x|) (-126) - 23)| = 1 / 2 → r % 2 = 0)
      ∧ toFloat x
          = if (2 : α) ^ 128 ≤ |(r : α) * (2 : α) ^ (max (Int.log 2 |x|) (-126) - 23)| then
              FloatValue.overflow (decide (x < 0))
            else FloatValue.finite ((r : α) * (2 : α) ^ (max (Int.log 2 |x|) (-126) - 23)) :=
  ⟨roundHalfEven (x / (2 : α) ^ (max (Int.log 2 |x|) (-126) - 23)),
   (roundHalfEven_spec _).1, (roundHalfEven_spec _).2, rfl⟩

theorem int_log_two_eq (y : α) (e : Int) (hlo : (2 : α) ^ e ≤ y) (hhi : y < (2 : α) ^ (e + 1)) :
    Int.log 2 y = e := by
  have hpos : 0 < y := lt_of_lt_of_le (zpow_pos (by norm_num) e) hlo
  apply le_antisymm
  · have h1 : Int.log 2 y < e + 1 :=
      (Int.lt_zpow_iff_log_lt (by norm_num : 1 < 2) hpos).mp (by simpa using hhi)
    omega
  · have h2 : e ≤ Int.log 2 y :=
      (Int.zpow_le_iff_le_log (by norm_num : 1 < 2) hpos).mp (by simpa using hlo)
    exact h2

/-- The conversion of a number in the normal range, from its binade and its rounded
significand -/
theorem toFloat_of_binade (x : α) (e k : Int) (he : -126 ≤ e) (hlo : (2 : α) ^ e ≤ |x|)
    (hhi : |x| < (2 : α) ^ (e + 1)) (hk : roundHalfEven (x / (2 : α) ^ (e - 23)) = k)
    (hfin : |(k : α) * (2 : α) ^ (e - 23)| < (2 : α) ^ 128) :
    toFloat x = FloatValue.finite ((k : α) * (2 : α) ^ (e - 23)) := by
  have hlog : Int.log 2 |x| = e := int_log_two_eq _ e hlo hhi
  have hmax : max e (-126) = e := max_eq_left he
  unfold toFloat
  rw [hlog, hmax, hk, if_neg (not_le.mpr hfin)]

theorem toFloat_neg_one : toFloat (-1 : α) = FloatValue.finite (-1) := by
  have h := toFloat_of_binade (-1 : α) 0 (-8388608) (by norm_num) (by norm_num) (by norm_num)
    (by
      have : (-1 : α) / (2 : α) ^ ((0 : Int) - 23) = ((-8388608 : Int) : α) := by
        rw [zpow_sub₀ (by norm_num)]
        norm_num
      rw [this, roundHalfEven_intCast])
    (by
      rw [zpow_sub₀ (by norm_num)]
      norm_num)
  rw [h]
  congr 1
  rw [zpow_sub₀ (by norm_num)]
  norm_num

theorem toFloat_doubleTenth :
    toFloat (doubleTenth α) = FloatValue.finite (13421773 / 134217728) := by
  have hexp : (2 : α) ^ ((-4 : Int) - 23) = 1 / 134217728 := by
    rw [show ((-4 : Int) - 23) = -27 by norm_num, zpow_neg]
    norm_num
  have h := toFloat_of_binade (doubleTenth α) (-4) 13421773 (by norm_num)
    (by
      unfold doubleTenth
      rw [zpow_neg]
      norm_num [abs_of_pos])
    (by
      unfold doubleTenth
      rw [show ((-4 : Int) + 1) = -3 by norm_num, zpow_neg]
      norm_num [abs_of_pos])
    (by
      rw [hexp]
      have := roundHalfEven_of_gt_half (doubleTenth α / (1 / 134217728)) 13421772
        (by unfold doubleTenth; norm_num) (by unfold doubleTenth; norm_num)
      rw [this]
      norm_num)
    (by
      rw [hexp]
      norm_num [abs_of_pos])
  rw [h, hexp]
  congr 1
  norm_num

theorem doubleTenth_ne : (13421773 / 134217728 : α) ≠ doubleTenth α := by
  unfold doubleTenth
  norm_num

end Lemmas

section CallbackLemmas

variable {α : Type} [LinearOrderedField α] [FloorRing α]

theorem emitLoop_lastFrame (l r : Int → α) (n : Nat) (e : Emission α) :
    (emitLoop l r n e).lastFrame = e.lastFrame + (n : Int) := by
  induction n generalizing e with
  | zero => simp [emitLoop]
  | succ k ih =>
    rw [emitLoop, ih]
    simp only [emitStep]
    push_cast
    ring

theorem emitLoop_reads (l r : Int → α) (n : Nat) (e : Emission α) :
    (emitLoop l r n e).reads
      = e.reads ++ (List.range n).map (fun (i : Nat) => e.lastFrame + (i : Int)) := by
  induction n generalizing e with
  | zero => simp [emitLoop]
  | succ k ih =>
    rw [emitLoop, ih, List.range_succ_eq_map]
    simp only [emitStep, List.map_cons, List.map_map, List.append_assoc, List.singleton_append]
    congr 2
    · simp
    · apply List.map_congr_left
      intro i _
      simp only [Function.comp, Nat.succ_eq_add_one]
      push_cast
      ring

theorem emitLoop_out (l r : Int → α) (n : Nat) (e : Emission α) :
    (emitLoop l r n e).out
      = e.out ++ ((List.range n).map (fun (i : Nat) =>
          [toFloat (l (e.lastFrame + (i : Int))), toFloat (r (e.lastFrame + (i : Int)))])).flatten := by
  induction n generalizing e with
  | zero => simp [emitLoop]
  | succ k ih =>
    rw [emitLoop, ih, List.range_succ_eq_map]
    simp only [emitStep, List.map_cons, List.map_map, List.append_assoc, List.flatten_cons]
    congr 2
    · simp
    · congr 1
      apply List.map_congr_left
      intro i _
      simp only [Function.comp, Nat.succ_eq_add_one]
      have : e.lastFrame + 1 + (i : Int) = e.lastFrame + ((i + 1 : Nat) : Int) := by
        push_cast
        ring
      rw [this]

theorem emitLoop_sum (l r : Int → α) (n : Nat) (e : Emission α) :
    (emitLoop l r n e).sum
      = e.sum + ((List.range n).map (fun (i : Nat) =>
          abs (l (e.lastFrame + (i : Int)) + abs (r (e.lastFrame + (i : Int)))) / 2)).sum := by
  induction n generalizing e with
  | zero => simp [emitLoop]
  | succ k ih =>
    rw [emitLoop, ih, List.range_succ_eq_map]
    simp only [emitStep, List.map_cons, List.map_map, List.sum_cons]
    have hmap : (List.range k).map (fun (i : Nat) =>
          abs (l (e.lastFrame + 1 + (i : Int)) + abs (r (e.lastFrame + 1 + (i : Int)))) / 2)
        = (List.range k).map ((fun (i : Nat) =>
          abs (l (e.lastFrame + (i : Int)) + abs (r (e.lastFrame + (i : Int)))) / 2) ∘ Nat.succ) := by
      apply List.map_congr_left
      intro i _
      simp only [Function.comp, Nat.succ_eq_add_one]
      have : e.lastFrame + 1 + (i : Int) = e.lastFrame + ((i + 1 : Nat) : Int) := by
        push_cast
        ring
      rw [this]
    rw [hmap]
    simp [add_assoc]

theorem audioCallback_lastFrame (m : Extern α) (song : SongData α) (n : Nat) :
    (audioCallback m song n).song.lastFrame = song.lastFrame + (n : Int) := by
  simp [audioCallback, emitLoop_lastFrame]

theorem audioCallback_totalFrames (m : Extern α) (song : SongData α) (n : Nat) :
    (audioCallback m song n).song.totalFrames = song.totalFrames := rfl

theorem audioCallback_reads (m : Extern α) (song : SongData α) (n : Nat) :
    (audioCallback m song n).reads
      = (List.range n).map (fun (i : Nat) => song.lastFrame + (i : Int)) := by
  simp [audioCallback, emitLoop_reads]

theorem audioCallback_out (m : Extern α) (song : SongData α) (n : Nat) :
    (audioCallback m song n).out
      = ((List.range n).map (fun (i : Nat) =>
          [toFloat (song.leftChannel (song.lastFrame + (i : Int))),
           toFloat (song.rightChannel (song.lastFrame + (i : Int)))])).flatten := by
  simp [audioCallback, emitLoop_out]

theorem audioCallback_soundLevel (m : Extern α) (song : SongData α) (n : Nat) :
    (audioCallback m song n).song.soundLevel
      = ((List.range n).map (fun (i : Nat) =>
          abs (song.leftChannel (song.lastFrame + (i : Int))
            + abs (song.rightChannel (song.lastFrame + (i : Int)))) / 2)).sum / (n : α) := by
  simp [audioCallback, emitLoop_sum]

theorem runCallbacks_append (m : Extern α) (song : SongData α) (xs ys : List Nat) :
    runCallbacks m song (xs ++ ys) = runCallbacks m (runCallbacks m song xs) ys := by
  simp [runCallbacks, List.foldl_append]

theorem runCallbacks_lastFrame (m : Extern α) (song : SongData α) (buffers : List Nat) :
    (runCallbacks m song buffers).lastFrame = song.lastFrame + (buffers.sum : Int) := by
  induction buffers generalizing song with
  | nil => simp [runCallbacks]
  | cons n t ih =>
    have h : runCallbacks m song (n :: t) = runCallbacks m (audioCallback m song n).song t := rfl
    rw [h, ih, audioCallback_lastFrame]
    simp only [List.sum_cons]
    push_cast
    ring

theorem runCallbacks_totalFrames (m : Extern α) (song : SongData α) (buffers : List Nat) :
    (runCallbacks m song buffers).totalFrames = song.totalFrames := by
  induction buffers generalizing song with
  | nil => simp [runCallbacks]
  | cons n t ih =>
    have h : runCallbacks m song (n :: t) = runCallbacks m (audioCallback m song n).song t := rfl
    rw [h, ih, audioCallback_totalFrames]

end CallbackLemmas

section LevelsLemmas

variable {α : Type} [LinearOrderedField α] [FloorRing α]

theorem pairs_length {β : Type} (f g : Nat → β) (n : Nat) :
    ((List.range n).map (fun (i : Nat) => [f i, g i])).flatten.length = 2 * n := by
  induction n with
  | zero => simp
  | succ k ih =>
    rw [List.range_succ, List.map_append, List.flatten_append, List.length_append, ih]
    simp
    omega

theorem pairs_getElem? {β : Type} (f g : Nat → β) (n i : Nat) (h : i < n) :
    ((List.range n).map (fun (i : Nat) => [f i, g i])).flatten[2 * i]? = some (f i)
    ∧ ((List.range n).map (fun (i : Nat) => [f i, g i])).flatten[2 * i + 1]? = some (g i) := by
  induction n with
  | zero => omega
  | succ k ih =>
    rw [List.range_succ, List.map_append, List.flatten_append]
    by_cases hk : i < k
    · have h1 : 2 * i < ((List.range k).map (fun (i : Nat) => [f i, g i])).flatten.length := by
        rw [pairs_length]; omega
      have h2 : 2 * i + 1 < ((List.range k).map (fun (i : Nat) => [f i, g i])).flatten.length := by
        rw [pairs_length]; omega
      rw [List.getElem?_append_left h1, List.getElem?_append_left h2]
      exact ih hk
    · have hik : i = k := by omega
      subst hik
      have h1 : ((List.range i).map (fun (i : Nat) => [f i, g i])).flatten.length ≤ 2 * i := by
        rw [pairs_length]
      have h2 : ((List.range i).map (fun (i : Nat) => [f i, g i])).flatten.length ≤ 2 * i + 1 := by
        rw [pairs_length]; omega
      rw [List.getElem?_append_right h1, List.getElem?_append_right h2, pairs_length]
      simp

theorem audioCallback_levels (m : Extern α) (song : SongData α) (n : Nat) :
    (audioCallback m song n).song.levels
      = fillLoop (levelEntry m (fftwExecute m song.leftChannel (fftIdx song))
          (fftwExecute m song.rightChannel (fftIdx song))) FFT_OUT_LENGTH song.levels := by
  simp only [audioCallback]

theorem audioCallback_levels_length (m : Extern α) (song : SongData α) (n : Nat) :
    (audioCallback m song n).song.levels.length = song.levels.length := by
  rw [audioCallback_levels, fillLoop_length]

theorem runCallbacks_levels_length (m : Extern α) (song : SongData α) (buffers : List Nat) :
    (runCallbacks m song buffers).levels.length = song.levels.length := by
  induction buffers generalizing song with
  | nil => simp [runCallbacks]
  | cons n t ih =>
    have h : runCallbacks m song (n :: t) = runCallbacks m (audioCallback m song n).song t := rfl
    rw [h, ih, audioCallback_levels_length]

theorem fftwExecute_length (m : Extern α) (ch : Int → α) (idx : Int) :
    (fftwExecute m ch idx).length = FFT_OUT_LENGTH := by
  simp [fftwExecute]

theorem fftwExecute_getD (m : Extern α) (ch : Int → α) (idx : Int) (i : Nat)
    (h : i < FFT_OUT_LENGTH) :
    (fftwExecute m ch idx).getD i (0, 0)
      = m.r2c DOUBLE_AUDIBLE_BAND (fun j => ch (idx + (j : Int))) i := by
  unfold fftwExecute
  rw [List.getD_eq_getElem?_getD, List.getElem?_map, List.getElem?_range h]
  rfl

theorem sum_replicate_div (n : Nat) (c : α) (hn : 0 < n) :
    (List.replicate n c).sum / (n : α) = c := by
  have hne : (n : α) ≠ 0 := by exact_mod_cast (Nat.pos_iff_ne_zero.mp hn)
  rw [List.sum_replicate, nsmul_eq_mul]
  field_simp

end LevelsLemmas

/-! ## The playback cursor and the sample-emission loop -/

section CursorClaims

variable {α : Type} [LinearOrderedField α] [FloorRing α]

theorem runCallbacks_leftChannel (m : Extern α) (song : SongData α) (buffers : List Nat) :
    (runCallbacks m song buffers).leftChannel = song.leftChannel := by
  induction buffers generalizing song with
  | nil => simp [runCallbacks]
  | cons n t ih =>
    have h : runCallbacks m song (n :: t) = runCallbacks m (audioCallback m song n).song t := rfl
    rw [h, ih]
    rfl

theorem runCallbacks_rightChannel (m : Extern α) (song : SongData α) (buffers : List Nat) :
    (runCallbacks m song buffers).rightChannel = song.rightChannel := by
  induction buffers generalizing song with
  | nil => simp [runCallbacks]
  | cons n t ih =>
    have h : runCallbacks m song (n :: t) = runCallbacks m (audioCallback m song n).song t := rfl
    rw [h, ih]
    rfl

/-- C1, as amended.  From a freshly constructed `SongData`, after any finite sequence of
`audioCallback` invocations the cursor `lastFrame` equals the sum of the `framesPerBuffer`
values of those invocations, so it is at least `0`; one more invocation with `framesPerBuffer
= n` moves it to `lastFrame + n`, so it never decreases; and it is at most `totalFrames`
exactly when that sum is at most `totalFrames`: the callback does not clamp the cursor. -/
theorem cursor_is_sum_of_buffers (m : Extern α) (l r : Int → α) (t : Int)
    (outL outR : List (α × α)) (buffers : List Nat) (n : Nat) :
    (runCallbacks m (SongData.new l r t outL outR) buffers).lastFrame = (buffers.sum : Int)
    ∧ 0 ≤ (runCallbacks m (SongData.new l r t outL outR) buffers).lastFrame
    ∧ (runCallbacks m (SongData.new l r t outL outR) (buffers ++ [n])).lastFrame
        = (runCallbacks m (SongData.new l r t outL outR) buffers).lastFrame + (n : Int)
    ∧ (runCallbacks m (SongData.new l r t outL outR) buffers).lastFrame
        ≤ (runCallbacks m (SongData.new l r t outL outR) (buffers ++ [n])).lastFrame
    ∧ ((runCallbacks m (SongData.new l r t outL outR) buffers).lastFrame
          ≤ (runCallbacks m (SongData.new l r t outL outR) buffers).totalFrames
        ↔ (buffers.sum : Int) ≤ t) := by
  have h0 : (SongData.new l r t outL outR).lastFrame = 0 := rfl
  have ht : (SongData.new l r t outL outR).totalFrames = t := rfl
  have hsum : (runCallbacks m (SongData.new l r t outL outR) buffers).lastFrame
      = (buffers.sum : Int) := by
    rw [runCallbacks_lastFrame, h0, zero_add]
  have hstep : (runCallbacks m (SongData.new l r t outL outR) (buffers ++ [n])).lastFrame
      = (runCallbacks m (SongData.new l r t outL outR) buffers).lastFrame + (n : Int) := by
    rw [runCallbacks_lastFrame, runCallbacks_lastFrame, h0]
    simp
  refine ⟨hsum, ?_, hstep, ?_, ?_⟩
  · rw [hsum]
    exact Int.natCast_nonneg _
  · rw [hstep]
    have : (0 : Int) ≤ (n : Int) := Int.natCast_nonneg _
    omega
  · rw [hsum, runCallbacks_totalFrames, ht]

/-- C1 fails as stated: on a fresh track of `100352` frames, after `50` invocations with
`framesPerBuffer = 2048` the cursor is `102400`, beyond `totalFrames`. -/
theorem cursor_exceeds_totalFrames :
    (runCallbacks Extern.real (constantTrack ℝ) (List.replicate 50 FRAMES_PER_BUFFER)).lastFrame
      = 102400
    ∧ ¬ ((runCallbacks Extern.real (constantTrack ℝ) (List.replicate 50 FRAMES_PER_BUFFER)).lastFrame
          ≤ (runCallbacks Extern.real (constantTrack ℝ)
              (List.replicate 50 FRAMES_PER_BUFFER)).totalFrames) := by
  have h0 : (constantTrack ℝ).lastFrame = 0 := rfl
  have ht : (constantTrack ℝ).totalFrames = 100352 := rfl
  have hsum : (runCallbacks Extern.real (constantTrack ℝ)
      (List.replicate 50 FRAMES_PER_BUFFER)).lastFrame = 102400 := by
    rw [runCallbacks_lastFrame, h0]
    simp [FRAMES_PER_BUFFER]
  refine ⟨hsum, ?_⟩
  rw [hsum, runCallbacks_totalFrames, ht]
  decide

/-- C2, as amended.  In every state in which fewer than `framesPerBuffer` frames remain ahead
of the cursor (and `framesPerBuffer > 0`), the emission loop of `audioCallback` dereferences
the channels at the offsets `lastFrame, .., lastFrame + framesPerBuffer - 1` without any
check against `totalFrames`, so at least one of its reads is at an offset `≥ totalFrames`;
and output positions `2i`, `2i+1` receive the content of the left and right cell at offset
`lastFrame + i`, whether or not that offset is inside the track: no zero is substituted. -/
theorem emission_reads_past_track_end (m : Extern α) (song : SongData α) (n : Nat)
    (hfew : song.totalFrames - song.lastFrame < (n : Int)) (hn : 0 < n) :
    (audioCallback m song n).reads = (List.range n).map (fun (i : Nat) => song.lastFrame + (i : Int))
    ∧ (∃ idx ∈ (audioCallback m song n).reads, song.totalFrames ≤ idx)
    ∧ (∀ i : Nat, i < n →
        (audioCallback m song n).out[2 * i]?
          = some (toFloat (song.leftChannel (song.lastFrame + (i : Int))))
        ∧ (audioCallback m song n).out[2 * i + 1]?
          = some (toFloat (song.rightChannel (song.lastFrame + (i : Int))))) := by
  refine ⟨audioCallback_reads m song n, ?_, ?_⟩
  · refine ⟨song.lastFrame + ((n - 1 : Nat) : Int), ?_, ?_⟩
    · rw [audioCallback_reads]
      exact List.mem_map.mpr ⟨n - 1, List.mem_range.mpr (by omega), rfl⟩
    · omega
  · intro i hi
    rw [audioCallback_out]
    exact pairs_getElem? _ _ n i hi

/-- C2 fails as stated: on the track of `100352` frames, after `49` invocations with
`framesPerBuffer = 2048` the cursor equals `totalFrames`; the next invocation reads the
channels at offset `100352`, which is not below `totalFrames`, and writes the content of that
cell, not zero, to the first output position. -/
theorem emission_at_track_end_not_silent :
    (runCallbacks Extern.real (constantTrack ℝ) (List.replicate 49 FRAMES_PER_BUFFER)).lastFrame
      = (runCallbacks Extern.real (constantTrack ℝ)
          (List.replicate 49 FRAMES_PER_BUFFER)).totalFrames
    ∧ ¬ (∀ idx ∈ (audioCallback Extern.real
            (runCallbacks Extern.real (constantTrack ℝ) (List.replicate 49 FRAMES_PER_BUFFER))
            FRAMES_PER_BUFFER).reads,
          idx < (runCallbacks Extern.real (constantTrack ℝ)
            (List.replicate 49 FRAMES_PER_BUFFER)).totalFrames)
    ∧ (audioCallback Extern.real
          (runCallbacks Extern.real (constantTrack ℝ) (List.replicate 49 FRAMES_PER_BUFFER))
          FRAMES_PER_BUFFER).out[0]? = some (FloatValue.finite (-1 : ℝ)) := by
  have h0 : (constantTrack ℝ).lastFrame = 0 := rfl
  have ht : (constantTrack ℝ).totalFrames = 100352 := rfl
  have hsum : (runCallbacks Extern.real (constantTrack ℝ)
      (List.replicate 49 FRAMES_PER_BUFFER)).lastFrame = 100352 := by
    rw [runCallbacks_lastFrame, h0]
    simp [FRAMES_PER_BUFFER]
  have htot : (runCallbacks Extern.real (constantTrack ℝ)
      (List.replicate 49 FRAMES_PER_BUFFER)).totalFrames = 100352 := by
    rw [runCallbacks_totalFrames, ht]
  refine ⟨by rw [hsum, htot], ?_, ?_⟩
  · intro hall
    have hmem : (100352 : Int) ∈ (audioCallback Extern.real
        (runCallbacks Extern.real (constantTrack ℝ) (List.replicate 49 FRAMES_PER_BUFFER))
        FRAMES_PER_BUFFER).reads := by
      rw [audioCallback_reads, hsum]
      exact List.mem_map.mpr ⟨0, List.mem_range.mpr (by decide), by simp⟩
    have := hall 100352 hmem
    rw [htot] at this
    exact absurd this (by decide)
  · have hpos : 0 < FRAMES_PER_BUFFER := by decide
    have h := (pairs_getElem?
      (fun (i : Nat) => toFloat ((runCallbacks Extern.real (constantTrack ℝ)
        (List.replicate 49 FRAMES_PER_BUFFER)).leftChannel ((runCallbacks Extern.real
        (constantTrack ℝ) (List.replicate 49 FRAMES_PER_BUFFER)).lastFrame + (i : Int))))
      (fun (i : Nat) => toFloat ((runCallbacks Extern.real (constantTrack ℝ)
        (List.replicate 49 FRAMES_PER_BUFFER)).rightChannel ((runCallbacks Extern.real
        (constantTrack ℝ) (List.replicate 49 FRAMES_PER_BUFFER)).lastFrame + (i : Int))))
      FRAMES_PER_BUFFER 0 hpos).1
    rw [audioCallback_out]
    rw [Nat.mul_zero] at h
    rw [h, runCallbacks_leftChannel]
    exact congrArg some toFloat_neg_one

end CursorClaims

section AnalysisClaims

variable {α : Type} [LinearOrderedField α] [FloorRing α]

theorem audioCallback_fftIdx (m : Extern α) (song : SongData α) (n : Nat) :
    (audioCallback m song n).fftIdx = fftIdx song := by
  simp only [audioCallback]

/-- On a track of at least `2 * 44100` frames the analysis window `[fftIdx, fftIdx + 44100)`
lies inside the track for every cursor position inside the track. -/
theorem fftIdx_window_inside_long_track (song : SongData α)
    (h0 : 0 ≤ song.lastFrame) (hlong : 88200 ≤ song.totalFrames) :
    0 ≤ fftIdx song ∧ fftIdx song + 44100 ≤ song.totalFrames := by
  unfold fftIdx
  split_ifs with h
  · constructor <;> omega
  · constructor <;> omega

/-- C3, the code at the failing input.  On a fresh track of `50000` frames, after three
invocations with `framesPerBuffer = 2048` the cursor is `6144`, inside the track; the fourth
invocation selects `fftIdx = 44100`, and the window `[44100, 88200)` handed to the transform
ends beyond `totalFrames = 50000`. -/
theorem fftIdx_window_outside_short_track (m : Extern α) :
    (runCallbacks m (shortTrack α) (List.replicate 3 FRAMES_PER_BUFFER)).totalFrames = 50000
    ∧ (runCallbacks m (shortTrack α) (List.replicate 3 FRAMES_PER_BUFFER)).lastFrame = 6144
    ∧ (audioCallback m (runCallbacks m (shortTrack α) (List.replicate 3 FRAMES_PER_BUFFER))
        FRAMES_PER_BUFFER).fftIdx = 44100
    ∧ ¬ ((audioCallback m (runCallbacks m (shortTrack α) (List.replicate 3 FRAMES_PER_BUFFER))
          FRAMES_PER_BUFFER).fftIdx + 44100
        ≤ (runCallbacks m (shortTrack α) (List.replicate 3 FRAMES_PER_BUFFER)).totalFrames) := by
  have h0 : (shortTrack α).lastFrame = 0 := rfl
  have ht : (shortTrack α).totalFrames = 50000 := rfl
  have hsum : (runCallbacks m (shortTrack α)
      (List.replicate 3 FRAMES_PER_BUFFER)).lastFrame = 6144 := by
    rw [runCallbacks_lastFrame, h0]
    simp [FRAMES_PER_BUFFER]
  have htot : (runCallbacks m (shortTrack α)
      (List.replicate 3 FRAMES_PER_BUFFER)).totalFrames = 50000 := by
    rw [runCallbacks_totalFrames, ht]
  have hidx : (audioCallback m (runCallbacks m (shortTrack α)
      (List.replicate 3 FRAMES_PER_BUFFER)) FRAMES_PER_BUFFER).fftIdx = 44100 := by
    rw [audioCallback_fftIdx]
    unfold fftIdx
    rw [hsum, htot]
    decide
  refine ⟨htot, hsum, hidx, ?_⟩
  rw [hidx, htot]
  decide

/-- C4, the code at the failing input.  On the fresh track whose left samples are all `-1.0`
and right samples all `+1.0`, the first invocation with `framesPerBuffer = 2048` (all frames
inside the track) stores `soundLevel = 0`, while the arithmetic mean of
`(|left| + |right|) / 2` over the buffer is `1`: the code accumulates
`|left + |right|| / 2`. -/
theorem soundLevel_of_constant_track (m : Extern α) :
    (constantTrack α).lastFrame + (FRAMES_PER_BUFFER : Int) ≤ (constantTrack α).totalFrames
    ∧ (audioCallback m (constantTrack α) FRAMES_PER_BUFFER).song.soundLevel = 0
    ∧ meanAbsAmplitude (constantTrack α).leftChannel (constantTrack α).rightChannel
        (constantTrack α).lastFrame FRAMES_PER_BUFFER = 1 := by
  have hl : (constantTrack α).leftChannel = fun _ => -1 := rfl
  have hr : (constantTrack α).rightChannel = fun _ => 1 := rfl
  have hpos : 0 < FRAMES_PER_BUFFER := by decide
  have h0 : (constantTrack α).lastFrame = 0 := rfl
  have ht : (constantTrack α).totalFrames = 100352 := rfl
  refine ⟨by rw [h0, ht]; decide, ?_, ?_⟩
  · rw [audioCallback_soundLevel, hl, hr]
    have hterm : (fun (_ : Nat) => abs ((-1 : α) + abs (1 : α)) / 2) = fun _ => (0 : α) := by
      funext i
      simp
    simp only [hterm, List.map_const', List.length_range]
    exact sum_replicate_div FRAMES_PER_BUFFER 0 hpos
  · unfold meanAbsAmplitude
    rw [hl, hr]
    have hterm : (fun (_ : Nat) => (abs (-1 : α) + abs (1 : α)) / 2) = fun _ => (1 : α) := by
      funext i
      simp
    simp only [hterm, List.map_const', List.length_range]
    exact sum_replicate_div FRAMES_PER_BUFFER 1 hpos

/-- C5, as amended.  When `lastFrame + framesPerBuffer ≤ totalFrames`, one invocation of
`audioCallback` with `framesPerBuffer = n` and cursor `c = lastFrame` writes exactly `2n`
samples, with `out[2i]` the left sample and `out[2i+1]` the right sample of frame `c + i`
converted from `double` to `float` (rounded to the nearest single-precision number), for
every `i < n`, so that `out[2i]` is `left[c+i]` itself exactly when `left[c+i]` is a
`float`, and likewise on the right; the cursor afterwards is `c + n`; the returned status
is `0`; `totalFrames` and both channels are unchanged; and every cell the loop reads lies at
an offset from `c` up to, but not including, `totalFrames`.  The last part spells the
conversion out: `toFloat x` is `r * q`, with `q = 2 ^ (max ⌊log2 |x|⌋ (-126) - 23)` and `r`
an integer nearest to `x / q`, even on a tie, or an infinity when `|r * q| ≥ 2 ^ 128`. -/
theorem emission_copies_frames (m : Extern α) (song : SongData α) (n : Nat)
    (h : song.lastFrame + (n : Int) ≤ song.totalFrames) :
    (audioCallback m song n).out.length = 2 * n
    ∧ (∀ i : Nat, i < n →
        (audioCallback m song n).out[2 * i]?
          = some (toFloat (song.leftChannel (song.lastFrame + (i : Int))))
        ∧ (audioCallback m song n).out[2 * i + 1]?
          = some (toFloat (song.rightChannel (song.lastFrame + (i : Int)))))
    ∧ (∀ i : Nat, i < n →
        ((audioCallback m song n).out[2 * i]?
            = some (FloatValue.finite (song.leftChannel (song.lastFrame + (i : Int))))
          ↔ toFloat (song.leftChannel (song.lastFrame + (i : Int)))
              = FloatValue.finite (song.leftChannel (song.lastFrame + (i : Int))))
        ∧ ((audioCallback m song n).out[2 * i + 1]?
            = some (FloatValue.finite (song.rightChannel (song.lastFrame + (i : Int))))
          ↔ toFloat (song.rightChannel (song.lastFrame + (i : Int)))
              = FloatValue.finite (song.rightChannel (song.lastFrame + (i : Int)))))
    ∧ (audioCallback m song n).song.lastFrame = song.lastFrame + (n : Int)
    ∧ (audioCallback m song n).status = 0
    ∧ (audioCallback m song n).song.totalFrames = song.totalFrames
    ∧ (audioCallback m song n).song.leftChannel = song.leftChannel
    ∧ (audioCallback m song n).song.rightChannel = song.rightChannel
    ∧ (∀ idx ∈ (audioCallback m song n).reads, song.lastFrame ≤ idx ∧ idx < song.totalFrames)
    ∧ (∀ x : α, ∃ r : Int,
        |(r : α) - x / (2 : α) ^ (max (Int.log 2 |x|) (-126) - 23)| ≤ 1 / 2
        ∧ (|(r : α) - x / (2 : α) ^ (max (Int.log 2 |x|) (-126) - 23)| = 1 / 2 → r % 2 = 0)
        ∧ toFloat x
            = if (2 : α) ^ 128 ≤ |(r : α) * (2 : α) ^ (max (Int.log 2 |x|) (-126) - 23)| then
                FloatValue.overflow (decide (x < 0))
              else
                FloatValue.finite ((r : α) * (2 : α) ^ (max (Int.log 2 |x|) (-126) - 23))) := by
  have hout : ∀ i : Nat, i < n →
      (audioCallback m song n).out[2 * i]?
        = some (toFloat (song.leftChannel (song.lastFrame + (i : Int))))
      ∧ (audioCallback m song n).out[2 * i + 1]?
        = some (toFloat (song.rightChannel (song.lastFrame + (i : Int)))) := by
    intro i hi
    rw [audioCallback_out]
    exact pairs_getElem? _ _ n i hi
  refine ⟨?_, hout, ?_, audioCallback_lastFrame m song n, ?_, ?_, ?_, ?_, ?_, toFloat_spec⟩
  · rw [audioCallback_out, pairs_length]
  · intro i hi
    rw [(hout i hi).1, (hout i hi).2]
    exact ⟨⟨fun hh => Option.some.inj hh, fun hh => congrArg some hh⟩,
      ⟨fun hh => Option.some.inj hh, fun hh => congrArg some hh⟩⟩
  · simp only [audioCallback]
  · simp only [audioCallback]
  · simp only [audioCallback]
  · simp only [audioCallback]
  · intro idx hidx
    rw [audioCallback_reads] at hidx
    obtain ⟨i, hi, rfl⟩ := List.mem_map.mp hidx
    have hi2 : i < n := List.mem_range.mp hi
    constructor <;> omega

/-- Witness of C5 as amended: the first invocation on the fresh track of `100352` frames
whose samples are all the `double` `0.1`, with `framesPerBuffer = 2048`. -/
theorem emission_copies_frames_witness :
    (tenthTrack ℝ).lastFrame + (FRAMES_PER_BUFFER : Int) ≤ (tenthTrack ℝ).totalFrames
    ∧ (audioCallback Extern.real (tenthTrack ℝ) FRAMES_PER_BUFFER).out.length
        = 2 * FRAMES_PER_BUFFER
    ∧ (audioCallback Extern.real (tenthTrack ℝ) FRAMES_PER_BUFFER).song.lastFrame
        = (tenthTrack ℝ).lastFrame + (FRAMES_PER_BUFFER : Int)
    ∧ (audioCallback Extern.real (tenthTrack ℝ) FRAMES_PER_BUFFER).status = 0
    ∧ (audioCallback Extern.real (tenthTrack ℝ) FRAMES_PER_BUFFER).out[2 * 0]?
        = some (FloatValue.finite (13421773 / 134217728)) :=
  ⟨by decide,
   (emission_copies_frames Extern.real (tenthTrack ℝ) FRAMES_PER_BUFFER (by decide)).1,
   (emission_copies_frames Extern.real (tenthTrack ℝ) FRAMES_PER_BUFFER (by decide)).2.2.2.1,
   (emission_copies_frames Extern.real (tenthTrack ℝ) FRAMES_PER_BUFFER (by decide)).2.2.2.2.1,
   (((emission_copies_frames Extern.real (tenthTrack ℝ) FRAMES_PER_BUFFER (by decide)).2.1
      0 (by decide)).1).trans (congrArg some toFloat_doubleTenth)⟩

/-- C5 fails as stated: on the track whose samples are all the `double` `0.1`, the first
invocation (cursor `0`, `framesPerBuffer = 2048`, all frames inside the track) writes to
`out[0]` the `float` `13421773 / 2^27`, which is not the sample `left[0]`. -/
theorem emission_output_is_rounded :
    (tenthTrack ℝ).lastFrame + (FRAMES_PER_BUFFER : Int) ≤ (tenthTrack ℝ).totalFrames
    ∧ (audioCallback Extern.real (tenthTrack ℝ) FRAMES_PER_BUFFER).out[2 * 0]?
        = some (FloatValue.finite (13421773 / 134217728))
    ∧ ¬ ((audioCallback Extern.real (tenthTrack ℝ) FRAMES_PER_BUFFER).out[2 * 0]?
          = some (FloatValue.finite
              ((tenthTrack ℝ).leftChannel ((tenthTrack ℝ).lastFrame + ((0 : Nat) : Int))))) := by
  have hl : (tenthTrack ℝ).leftChannel = fun _ => doubleTenth ℝ := rfl
  have hpos : 0 < FRAMES_PER_BUFFER := by decide
  have hout : (audioCallback Extern.real (tenthTrack ℝ) FRAMES_PER_BUFFER).out[2 * 0]?
      = some (FloatValue.finite (13421773 / 134217728)) := by
    rw [audioCallback_out, (pairs_getElem? _ _ FRAMES_PER_BUFFER 0 hpos).1, hl]
    exact congrArg some toFloat_doubleTenth
  refine ⟨by decide, hout, ?_⟩
  rw [hout, hl]
  intro heq
  have h2 := Option.some.inj heq
  rw [FloatValue.finite.injEq] at h2
  exact doubleTenth_ne h2

/-- Witness of C2 as amended: the track of `100352` frames with the cursor at `100352` (the
state reached after `49` invocations), where no frame remains, and `framesPerBuffer = 2048`. -/
theorem emission_reads_past_track_end_witness :
    (constantTrackAtEnd ℝ).totalFrames - (constantTrackAtEnd ℝ).lastFrame
        < (FRAMES_PER_BUFFER : Int)
    ∧ 0 < FRAMES_PER_BUFFER
    ∧ ∃ idx ∈ (audioCallback Extern.real (constantTrackAtEnd ℝ) FRAMES_PER_BUFFER).reads,
        (constantTrackAtEnd ℝ).totalFrames ≤ idx :=
  ⟨by decide, by decide,
   (emission_reads_past_track_end Extern.real (constantTrackAtEnd ℝ)
      FRAMES_PER_BUFFER (by decide) (by decide)).2.1⟩

/-- C9.  `FFT_OUT_LENGTH` is `22051`.  `levels` has that length after construction and after
every sequence of `audioCallback` invocations.  One more invocation leaves `levels` with the
same length and with entry `i`, for every `i < 22051`, equal to `(dB(L i) + dB(R i)) / 2`,
where `dB(c) = 20 * log10(sqrt(pow(re, 2) + pow(im, 2)))` and `L i`, `R i` are coefficient
`i` of the transform of the `44100`-sample window of the left and right channel at `fftIdx`.
The new content is the same whatever `levels` held before. -/
theorem levels_overwritten_by_callback (m : Extern α) (l r : Int → α) (t : Int)
    (outL outR : List (α × α)) (buffers : List Nat) (n : Nat) :
    FFT_OUT_LENGTH = 22051
    ∧ (SongData.new l r t outL outR).levels.length = FFT_OUT_LENGTH
    ∧ (runCallbacks m (SongData.new l r t outL outR) buffers).levels.length = FFT_OUT_LENGTH
    ∧ (audioCallback m (runCallbacks m (SongData.new l r t outL outR) buffers) n).song.levels.length
        = FFT_OUT_LENGTH
    ∧ (∀ i : Nat, i < FFT_OUT_LENGTH →
        (audioCallback m (runCallbacks m (SongData.new l r t outL outR) buffers) n).song.levels[i]?
          = some ((20 * m.log10 (m.sqrt
                (m.pow (m.r2c 44100 (fun j => l (fftIdx
                    (runCallbacks m (SongData.new l r t outL outR) buffers) + (j : Int))) i).1 2
                 + m.pow (m.r2c 44100 (fun j => l (fftIdx
                    (runCallbacks m (SongData.new l r t outL outR) buffers) + (j : Int))) i).2 2))
              + 20 * m.log10 (m.sqrt
                (m.pow (m.r2c 44100 (fun j => r (fftIdx
                    (runCallbacks m (SongData.new l r t outL outR) buffers) + (j : Int))) i).1 2
                 + m.pow (m.r2c 44100 (fun j => r (fftIdx
                    (runCallbacks m (SongData.new l r t outL outR) buffers) + (j : Int))) i).2 2)))
              / 2))
    ∧ (∀ prev : List α, prev.length = FFT_OUT_LENGTH →
        (audioCallback m
            { runCallbacks m (SongData.new l r t outL outR) buffers with levels := prev }
            n).song.levels
          = (audioCallback m (runCallbacks m (SongData.new l r t outL outR) buffers)
              n).song.levels) := by
  have hnew : (SongData.new l r t outL outR).levels.length = FFT_OUT_LENGTH := by
    simp [SongData.new]
  have hrun : (runCallbacks m (SongData.new l r t outL outR) buffers).levels.length
      = FFT_OUT_LENGTH := by
    rw [runCallbacks_levels_length, hnew]
  have hl : (runCallbacks m (SongData.new l r t outL outR) buffers).leftChannel = l := by
    rw [runCallbacks_leftChannel]
    rfl
  have hr : (runCallbacks m (SongData.new l r t outL outR) buffers).rightChannel = r := by
    rw [runCallbacks_rightChannel]
    rfl
  refine ⟨by decide, hnew, hrun, ?_, ?_, ?_⟩
  · rw [audioCallback_levels_length, hrun]
  · intro i hi
    rw [audioCallback_levels, fillLoop_eq_map_of_length _ _ _ hrun, List.getElem?_map,
      List.getElem?_range hi, hl, hr]
    simp only [Option.map_some', levelEntry, ampTodB, magnitude]
    rw [fftwExecute_getD m l _ i hi, fftwExecute_getD m r _ i hi]
    rfl
  · intro prev hprev
    rw [audioCallback_levels, audioCallback_levels, fillLoop_eq_map_of_length _ _ _ hrun,
      fillLoop_eq_map_of_length _ _ _ hprev]
    rfl

/-- Witness of C9: a previous content of `22051` entries all equal to `7` gives the same new
`levels` as the zero content of the fresh track. -/
theorem levels_overwritten_by_callback_witness :
    (List.replicate FFT_OUT_LENGTH (7 : ℝ)).length = FFT_OUT_LENGTH
    ∧ (audioCallback Extern.real
          { runCallbacks Extern.real
              (SongData.new (fun _ => -1) (fun _ => 1) 100352 [] []) [] with
            levels := List.replicate FFT_OUT_LENGTH (7 : ℝ) }
          FRAMES_PER_BUFFER).song.levels
        = (audioCallback Extern.real
            (runCallbacks Extern.real (SongData.new (fun _ => -1) (fun _ => 1) 100352 [] []) [])
            FRAMES_PER_BUFFER).song.levels :=
  ⟨List.length_replicate _ _,
   (levels_overwritten_by_callback Extern.real (fun _ => -1) (fun _ => 1) 100352 [] [] []
      FRAMES_PER_BUFFER).2.2.2.2.2 _ (List.length_replicate _ _)⟩

end AnalysisClaims

/-! ## The bucket map: lemmas and claims on `logspace` -/

section LogspaceLemmas

variable {α : Type} [LinearOrderedField α] [FloorRing α]

theorem logspaceRaw_eq_map (m : Extern α) (start stop : α) (num : Nat) :
    logspaceRaw m start stop num
      = (List.range num).map (logspaceEntry m start (logspaceStep m start stop num)) := by
  unfold logspaceRaw
  exact fillLoop_eq_map_of_length _ _ _ (List.length_replicate _ _)

theorem logspaceStep_eq (m : Extern α) (start stop : α) (num : Nat) :
    logspaceStep m start stop num = (m.log10 stop - m.log10 start) / ((num : α) - 1) := by
  unfold logspaceStep
  push_cast
  rfl

theorem toInt_of_in_range (x : α) (hlo : -2147483649 < x) (hhi : x < 2147483648) :
    toInt x = if 0 ≤ x then ⌊x⌋ else ⌈x⌉ := by
  simp only [toInt, hlo, hhi, and_self, if_true]

theorem toInt_of_nonneg (x : α) (h : 0 ≤ x) (hx : x < 2147483648) : toInt x = ⌊x⌋ := by
  have hlo : (-2147483649 : α) < x := lt_of_lt_of_le (by norm_num) h
  rw [toInt_of_in_range x hlo hx, if_pos h]

theorem toInt_of_large (x : α) (hx : 2147483648 ≤ x) : toInt x = -2147483648 := by
  have h : ¬ (-2147483649 < x ∧ x < 2147483648) := fun hh => absurd hh.2 (not_lt.mpr hx)
  simp only [toInt, h, if_false]

theorem chain'_map_range {β : Type} (R : β → β → Prop) (f : Nat → β) (n : Nat)
    (h : ∀ i, i + 1 < n → R (f i) (f (i + 1))) : List.Chain' R ((List.range n).map f) := by
  rw [List.chain'_map]
  cases n with
  | zero => simp
  | succ k =>
    rw [List.chain'_range_succ]
    intro i hi
    exact h i (by omega)

theorem unique_head? {β : Type} [DecidableEq β] (l : List β) :
    (unique l).head? = l.head? := by
  cases l with
  | nil => rfl
  | cons a t => rfl

theorem map_range_head? {β : Type} (f : Nat → β) (n : Nat) (hn : 0 < n) :
    ((List.range n).map f).head? = some (f 0) := by
  cases n with
  | zero => omega
  | succ k => simp [List.range_succ_eq_map]

/-- When `log10` and `pow(10, ·)` are non-decreasing and `pow(10, 0) = 1`, the values
`start * pow(10, i * step)` start at `start` and do not decrease with `i` -/
theorem value_mono (m : Extern α) (start stop : α) (num : Nat)
    (h0 : 0 < start) (h1 : start < stop) (hn : 2 ≤ num)
    (hlog : ∀ x y : α, 0 < x → x ≤ y → m.log10 x ≤ m.log10 y)
    (hpow0 : m.pow 10 0 = 1)
    (hpow : ∀ x y : α, 0 ≤ x → x ≤ y → m.pow 10 x ≤ m.pow 10 y) :
    start * m.pow 10 (((0 : Nat) : α) * logspaceStep m start stop num) = start
    ∧ ∀ i j : Nat, i ≤ j →
        start * m.pow 10 ((i : α) * logspaceStep m start stop num)
          ≤ start * m.pow 10 ((j : α) * logspaceStep m start stop num) := by
  have hstep : 0 ≤ logspaceStep m start stop num := by
    rw [logspaceStep_eq]
    apply div_nonneg
    · have := hlog start stop h0 h1.le
      linarith
    · have : (2 : α) ≤ (num : α) := by exact_mod_cast hn
      linarith
  constructor
  · simp [hpow0]
  · intro i j hij
    apply mul_le_mul_of_nonneg_left _ h0.le
    apply hpow
    · exact mul_nonneg (Nat.cast_nonneg i) hstep
    · apply mul_le_mul_of_nonneg_right _ hstep
      exact_mod_cast hij

theorem ten_rpow_mul (step : ℝ) (i : Nat) :
    (10 : ℝ) ^ ((i : ℝ) * step) = ((10 : ℝ) ^ step) ^ i := by
  rw [mul_comm, Real.rpow_mul_natCast (by norm_num)]

/-- In exact arithmetic the value computed for index `i` is `start * r ^ i` with the ratio
`r = 10 ^ step` -/
theorem value_real (start step : ℝ) (i : Nat) :
    start * Extern.real.pow 10 ((i : ℝ) * step) = start * ((10 : ℝ) ^ step) ^ i := by
  rw [← ten_rpow_mul]
  rfl

theorem logspaceEntry_real_toInt (start step : ℝ) (i : Nat) :
    logspaceEntry Extern.real start step i = toInt (start * ((10 : ℝ) ^ step) ^ i) := by
  unfold logspaceEntry
  rw [value_real]

theorem logspaceEntry_real (start step : ℝ) (i : Nat) (hs : 0 ≤ start)
    (hx : start * ((10 : ℝ) ^ step) ^ i < 2147483648) :
    logspaceEntry Extern.real start step i = ⌊start * ((10 : ℝ) ^ step) ^ i⌋ := by
  rw [logspaceEntry_real_toInt]
  apply toInt_of_nonneg _ _ hx
  have : (0 : ℝ) < (10 : ℝ) ^ step := Real.rpow_pos_of_pos (by norm_num) _
  positivity

theorem logspaceStep_real (start stop : ℝ) (num : Nat) :
    logspaceStep Extern.real start stop num
      = (Real.logb 10 stop - Real.logb 10 start) / ((num : ℝ) - 1) := by
  rw [logspaceStep_eq]
  rfl

/-- The ratio `10 ^ step` taken `num - 1` times leads from `start` to `stop` -/
theorem ratio_pow_real (start stop : ℝ) (num : Nat) (h0 : 0 < start) (h1 : 0 < stop)
    (hn : 2 ≤ num) :
    ((10 : ℝ) ^ logspaceStep Extern.real start stop num) ^ (num - 1) = stop / start := by
  have hcast : (((num - 1 : Nat)) : ℝ) = (num : ℝ) - 1 := by
    rw [Nat.cast_sub (by omega)]
    simp
  have hne : (num : ℝ) - 1 ≠ 0 := by
    have : (2 : ℝ) ≤ (num : ℝ) := by exact_mod_cast hn
    linarith
  rw [← Real.rpow_mul_natCast (by norm_num), logspaceStep_real, hcast,
    div_mul_cancel₀ _ hne, Real.rpow_sub (by norm_num),
    Real.rpow_logb (by norm_num) (by norm_num) h1,
    Real.rpow_logb (by norm_num) (by norm_num) h0]

theorem ratio_ge_one_real (start stop : ℝ) (num : Nat) (h0 : 0 < start) (h1 : start ≤ stop)
    (hn : 2 ≤ num) : 1 ≤ (10 : ℝ) ^ logspaceStep Extern.real start stop num := by
  apply Real.one_le_rpow (by norm_num)
  rw [logspaceStep_real]
  apply div_nonneg
  · have := Real.logb_le_logb_of_le (by norm_num : (1 : ℝ) < 10) h0 h1
    linarith
  · have : (2 : ℝ) ≤ (num : ℝ) := by exact_mod_cast hn
    linarith

/-- In exact arithmetic the value computed for index `i < num` lies between `start` and
`stop` -/
theorem entry_bounds_real (start stop : ℝ) (num i : Nat) (h0 : 0 < start) (h1 : start ≤ stop)
    (hn : 2 ≤ num) (hi : i < num) :
    start ≤ start * ((10 : ℝ) ^ logspaceStep Extern.real start stop num) ^ i
    ∧ start * ((10 : ℝ) ^ logspaceStep Extern.real start stop num) ^ i ≤ stop := by
  have hr := ratio_ge_one_real start stop num h0 h1 hn
  have hpow := ratio_pow_real start stop num h0 (lt_of_lt_of_le h0 h1) hn
  constructor
  · have : (1 : ℝ) ≤ ((10 : ℝ) ^ logspaceStep Extern.real start stop num) ^ i := one_le_pow₀ hr
    nlinarith
  · have hle : ((10 : ℝ) ^ logspaceStep Extern.real start stop num) ^ i
        ≤ ((10 : ℝ) ^ logspaceStep Extern.real start stop num) ^ (num - 1) :=
      pow_le_pow_right₀ hr (by omega)
    calc start * ((10 : ℝ) ^ logspaceStep Extern.real start stop num) ^ i
        ≤ start * ((10 : ℝ) ^ logspaceStep Extern.real start stop num) ^ (num - 1) :=
          mul_le_mul_of_nonneg_left hle h0.le
      _ = start * (stop / start) := by rw [hpow]
      _ = stop := by field_simp

theorem mem_logspace_real (start stop : ℝ) (num : Nat) (h0 : 0 < start) (h1 : start ≤ stop)
    (hn : 2 ≤ num) (hmax : stop < 2147483648) (v : Int)
    (hv : v ∈ logspace Extern.real start stop num) :
    ∃ i, i < num ∧ v = ⌊start * ((10 : ℝ) ^ logspaceStep Extern.real start stop num) ^ i⌋ := by
  have hraw := mem_of_mem_unique _ _ hv
  rw [logspaceRaw_eq_map] at hraw
  obtain ⟨i, hi, rfl⟩ := List.mem_map.mp hraw
  have hi2 := List.mem_range.mp hi
  exact ⟨i, hi2, logspaceEntry_real _ _ _ h0.le
    (lt_of_le_of_lt (entry_bounds_real start stop num i h0 h1 hn hi2).2 hmax)⟩

theorem logspace_real_mem_bounds (start stop : ℝ) (num : Nat) (h0 : 0 < start)
    (h1 : start ≤ stop) (hn : 2 ≤ num) (hmax : stop < 2147483648) (v : Int)
    (hv : v ∈ logspace Extern.real start stop num) : ⌊start⌋ ≤ v ∧ (v : ℝ) ≤ stop := by
  obtain ⟨i, hi, rfl⟩ := mem_logspace_real start stop num h0 h1 hn hmax v hv
  obtain ⟨hlo, hhi⟩ := entry_bounds_real start stop num i h0 h1 hn hi
  exact ⟨Int.floor_le_floor hlo, le_trans (Int.floor_le _) hhi⟩

/-- In exact arithmetic `logspace(1, 1e10, 2)` is `[1, INT_MIN]`: the second value, `1e10`,
is outside the range of `int` -/
theorem overflow_example :
    logspace Extern.real 1 10000000000 2 = [1, -2147483648] := by
  have hraw : logspaceRaw Extern.real 1 10000000000 2
      = [logspaceEntry Extern.real 1 (logspaceStep Extern.real 1 10000000000 2) 0,
         logspaceEntry Extern.real 1 (logspaceStep Extern.real 1 10000000000 2) 1] := by
    rw [logspaceRaw_eq_map]
    rfl
  have hr := ratio_pow_real 1 10000000000 2 (by norm_num) (by norm_num) (by norm_num)
  have e0 : logspaceEntry Extern.real 1 (logspaceStep Extern.real 1 10000000000 2) 0 = 1 := by
    rw [logspaceEntry_real _ _ _ (by norm_num) (by norm_num)]
    norm_num
  have e1 : logspaceEntry Extern.real 1 (logspaceStep Extern.real 1 10000000000 2) 1
      = -2147483648 := by
    rw [logspaceEntry_real_toInt]
    apply toInt_of_large
    have h2 : ((10 : ℝ) ^ logspaceStep Extern.real 1 10000000000 2) ^ 1 = 10000000000 := by
      simpa using hr
    rw [h2]
    norm_num
  unfold logspace
  rw [hraw, e0, e1]
  simp [unique, uniqueAux]

/-- In exact arithmetic `logspace(1, 2.5, 4)` computes `[1, 1, 1, 2]` and returns `[1, 2]` -/
theorem collapse_example :
    logspaceRaw Extern.real 1 (5 / 2) 4 = [1, 1, 1, 2]
    ∧ logspace Extern.real 1 (5 / 2) 4 = [1, 2] := by
  have hraw : logspaceRaw Extern.real 1 (5 / 2) 4
      = [logspaceEntry Extern.real 1 (logspaceStep Extern.real 1 (5 / 2) 4) 0,
         logspaceEntry Extern.real 1 (logspaceStep Extern.real 1 (5 / 2) 4) 1,
         logspaceEntry Extern.real 1 (logspaceStep Extern.real 1 (5 / 2) 4) 2,
         logspaceEntry Extern.real 1 (logspaceStep Extern.real 1 (5 / 2) 4) 3] := by
    rw [logspaceRaw_eq_map]
    rfl
  have hr3 : ((10 : ℝ) ^ logspaceStep Extern.real 1 (5 / 2) 4) ^ 3 = 5 / 2 := by
    have := ratio_pow_real 1 (5 / 2) 4 (by norm_num) (by norm_num) (by norm_num)
    simpa using this
  have hr1 : (1 : ℝ) ≤ (10 : ℝ) ^ logspaceStep Extern.real 1 (5 / 2) 4 :=
    ratio_ge_one_real 1 (5 / 2) 4 (by norm_num) (by norm_num) (by norm_num)
  have hr2 : ((10 : ℝ) ^ logspaceStep Extern.real 1 (5 / 2) 4) ^ 2 < 2 := by
    by_contra hge
    push_neg at hge
    nlinarith [hge, hr1, hr3]
  have hrlt : (10 : ℝ) ^ logspaceStep Extern.real 1 (5 / 2) 4 < 2 := by nlinarith
  have hentry : ∀ i : Nat, i < 4 →
      logspaceEntry Extern.real 1 (logspaceStep Extern.real 1 (5 / 2) 4) i
        = ⌊(1 : ℝ) * ((10 : ℝ) ^ logspaceStep Extern.real 1 (5 / 2) 4) ^ i⌋ := by
    intro i hi
    apply logspaceEntry_real _ _ _ (by norm_num)
    have := (entry_bounds_real 1 (5 / 2) 4 i (by norm_num) (by norm_num) (by norm_num) hi).2
    linarith
  have e0 : logspaceEntry Extern.real 1 (logspaceStep Extern.real 1 (5 / 2) 4) 0 = 1 := by
    rw [hentry 0 (by norm_num)]
    norm_num
  have e1 : logspaceEntry Extern.real 1 (logspaceStep Extern.real 1 (5 / 2) 4) 1 = 1 := by
    rw [hentry 1 (by norm_num), Int.floor_eq_iff]
    constructor
    · simpa using hr1
    · simpa using (by linarith : (10 : ℝ) ^ logspaceStep Extern.real 1 (5 / 2) 4 < 1 + 1)
  have e2 : logspaceEntry Extern.real 1 (logspaceStep Extern.real 1 (5 / 2) 4) 2 = 1 := by
    rw [hentry 2 (by norm_num), Int.floor_eq_iff]
    constructor
    · have : (1 : ℝ) ≤ ((10 : ℝ) ^ logspaceStep Extern.real 1 (5 / 2) 4) ^ 2 := one_le_pow₀ hr1
      simpa using this
    · simpa using (by linarith : ((10 : ℝ) ^ logspaceStep Extern.real 1 (5 / 2) 4) ^ 2 < 1 + 1)
  have e3 : logspaceEntry Extern.real 1 (logspaceStep Extern.real 1 (5 / 2) 4) 3 = 2 := by
    rw [hentry 3 (by norm_num), hr3, Int.floor_eq_iff]
    constructor <;> norm_num
  have hraw2 : logspaceRaw Extern.real 1 (5 / 2) 4 = [1, 1, 1, 2] := by
    rw [hraw, e0, e1, e2, e3]
  refine ⟨hraw2, ?_⟩
  unfold logspace
  rw [hraw2]
  simp [unique, uniqueAux]

end LogspaceLemmas

section LogspaceClaims

variable {α : Type} [LinearOrderedField α] [FloorRing α]

/-- C6, as amended.  For `0 < minFreq < maxFreq` and `count ≥ 2`, if the library's `log10`
is non-decreasing on positive arguments, `pow(10, ·)` is non-decreasing on non-negative
exponents, `pow(10, 0) = 1`, and the last computed value
`minFreq * pow(10, (count-1) * step)` is below `2^31`, then the sequence returned by
`logspace(minFreq, maxFreq, count)` is strictly increasing, its first value is
`⌊minFreq⌋`, and every value `v` in it satisfies
`⌊minFreq⌋ ≤ v ≤ ⌊minFreq * pow(10, (count-1) * step)⌋`.  Hence `minFreq ≤ v` when
`minFreq` is an integer, and `v ≤ maxFreq` when the last computed value does not exceed
`maxFreq`. -/
theorem logspace_increasing_and_bounded (m : Extern α) (start stop : α) (num : Nat)
    (h0 : 0 < start) (h1 : start < stop) (hn : 2 ≤ num)
    (hlog : ∀ x y : α, 0 < x → x ≤ y → m.log10 x ≤ m.log10 y)
    (hpow0 : m.pow 10 0 = 1)
    (hpow : ∀ x y : α, 0 ≤ x → x ≤ y → m.pow 10 x ≤ m.pow 10 y)
    (hmax : start * m.pow 10 (((num - 1 : Nat) : α)
        * ((m.log10 stop - m.log10 start) / ((num : α) - 1))) < 2147483648) :
    List.Sorted (· < ·) (logspace m start stop num)
    ∧ (logspace m start stop num).head? = some ⌊start⌋
    ∧ (∀ v ∈ logspace m start stop num,
        ⌊start⌋ ≤ v
        ∧ v ≤ ⌊start * m.pow 10 (((num - 1 : Nat) : α)
            * ((m.log10 stop - m.log10 start) / ((num : α) - 1)))⌋
        ∧ v < 2147483648)
    ∧ (∀ k : Int, start = (k : α) → ∀ v ∈ logspace m start stop num, k ≤ v)
    ∧ (start * m.pow 10 (((num - 1 : Nat) : α)
          * ((m.log10 stop - m.log10 start) / ((num : α) - 1))) ≤ stop →
        ∀ v ∈ logspace m start stop num, (v : α) ≤ stop) := by
  rw [← logspaceStep_eq] at hmax ⊢
  obtain ⟨hx0, hmono⟩ := value_mono m start stop num h0 h1 hn hlog hpow0 hpow
  have hge : ∀ i : Nat, start ≤ start * m.pow 10 ((i : α) * logspaceStep m start stop num) := by
    intro i
    have := hmono 0 i (Nat.zero_le i)
    rw [hx0] at this
    exact this
  have hlt : ∀ i : Nat, i < num →
      start * m.pow 10 ((i : α) * logspaceStep m start stop num) < 2147483648 := by
    intro i hi
    exact lt_of_le_of_lt (hmono i (num - 1) (by omega)) hmax
  have hentry : ∀ i : Nat, i < num →
      logspaceEntry m start (logspaceStep m start stop num) i
        = ⌊start * m.pow 10 ((i : α) * logspaceStep m start stop num)⌋ := by
    intro i hi
    exact toInt_of_nonneg _ (le_trans h0.le (hge i)) (hlt i hi)
  have hchain : List.Chain' (· ≤ ·) (logspaceRaw m start stop num) := by
    rw [logspaceRaw_eq_map]
    apply chain'_map_range
    intro i hi
    rw [hentry i (by omega), hentry (i + 1) hi]
    exact Int.floor_le_floor (hmono i (i + 1) (Nat.le_succ i))
  have hbound : ∀ v ∈ logspace m start stop num,
      ⌊start⌋ ≤ v
      ∧ v ≤ ⌊start * m.pow 10 (((num - 1 : Nat) : α) * logspaceStep m start stop num)⌋ := by
    intro v hv
    have hraw := mem_of_mem_unique _ _ hv
    rw [logspaceRaw_eq_map] at hraw
    obtain ⟨i, hi, rfl⟩ := List.mem_map.mp hraw
    have hi2 := List.mem_range.mp hi
    rw [hentry i hi2]
    exact ⟨Int.floor_le_floor (hge i), Int.floor_le_floor (hmono i (num - 1) (by omega))⟩
  refine ⟨?_, ?_, ?_, ?_, ?_⟩
  · exact List.chain'_iff_pairwise.mp (unique_chain_lt _ hchain)
  · unfold logspace
    rw [unique_head?, logspaceRaw_eq_map, map_range_head? _ _ (by omega), hentry 0 (by omega),
      hx0]
  · intro v hv
    obtain ⟨hlo, hhi⟩ := hbound v hv
    refine ⟨hlo, hhi, ?_⟩
    have h3 : ((⌊start * m.pow 10 (((num - 1 : Nat) : α) * logspaceStep m start stop num)⌋
        : Int) : α) < ((2147483648 : Int) : α) := by
      push_cast
      exact lt_of_le_of_lt (Int.floor_le _) hmax
    have h4 := Int.cast_lt.mp h3
    omega
  · intro k hk v hv
    have := (hbound v hv).1
    rw [hk, Int.floor_intCast] at this
    exact this
  · intro hstop v hv
    have h5 := (hbound v hv).2
    have h6 : (v : α) ≤ ((⌊start * m.pow 10 (((num - 1 : Nat) : α)
        * logspaceStep m start stop num)⌋ : Int) : α) := by exact_mod_cast h5
    exact le_trans h6 (le_trans (Int.floor_le _) hstop)

/-- Witness of C6 as amended: the exact real functions and the configured call
`logspace(20, 20000, 100)`. -/
theorem logspace_increasing_and_bounded_witness :
    (0 : ℝ) < 20 ∧ (20 : ℝ) < 20000 ∧ 2 ≤ 100
    ∧ (∀ x y : ℝ, 0 < x → x ≤ y → Extern.real.log10 x ≤ Extern.real.log10 y)
    ∧ Extern.real.pow 10 0 = 1
    ∧ (∀ x y : ℝ, 0 ≤ x → x ≤ y → Extern.real.pow 10 x ≤ Extern.real.pow 10 y)
    ∧ (20 : ℝ) * Extern.real.pow 10 (((100 - 1 : Nat) : ℝ)
        * ((Extern.real.log10 20000 - Extern.real.log10 20) / (((100 : Nat) : ℝ) - 1)))
      < 2147483648
    ∧ List.Sorted (· < ·) (logspace Extern.real 20 20000 100)
    ∧ (logspace Extern.real 20 20000 100).head? = some ⌊(20 : ℝ)⌋ :=
  have hlog : ∀ x y : ℝ, 0 < x → x ≤ y → Extern.real.log10 x ≤ Extern.real.log10 y :=
    fun _ _ hx hxy => Real.logb_le_logb_of_le (by norm_num : (1 : ℝ) < 10) hx hxy
  have hpow0 : Extern.real.pow 10 0 = 1 := Real.rpow_zero 10
  have hpow : ∀ x y : ℝ, 0 ≤ x → x ≤ y → Extern.real.pow 10 x ≤ Extern.real.pow 10 y :=
    fun _ _ _ hxy => Real.rpow_le_rpow_of_exponent_le (by norm_num) hxy
  have hmax : (20 : ℝ) * Extern.real.pow 10 (((100 - 1 : Nat) : ℝ)
      * ((Extern.real.log10 20000 - Extern.real.log10 20) / (((100 : Nat) : ℝ) - 1)))
      < 2147483648 := by
    rw [← logspaceStep_eq, value_real]
    have := (entry_bounds_real 20 20000 100 (100 - 1) (by norm_num) (by norm_num)
      (by norm_num) (by norm_num)).2
    linarith
  ⟨by norm_num, by norm_num, by norm_num, hlog, hpow0, hpow, hmax,
   (logspace_increasing_and_bounded Extern.real 20 20000 100 (by norm_num) (by norm_num)
      (by norm_num) hlog hpow0 hpow hmax).1,
   (logspace_increasing_and_bounded Extern.real 20 20000 100 (by norm_num) (by norm_num)
      (by norm_num) hlog hpow0 hpow hmax).2.1⟩

/-- C6 fails as stated, twice.  `logspace(0.5, 10, 2)` starts with the value `0`, which is
below `minFreq = 0.5`.  `logspace(1, 1e10, 2)` is `[1, INT_MIN]`, which is not increasing
and whose second value is below `minFreq = 1`. -/
theorem logspace_value_below_minFreq :
    ((1 / 2 : ℝ) < 10 ∧ 2 ≤ 2
      ∧ ¬ (∀ v ∈ logspace Extern.real (1 / 2) 10 2, (1 / 2 : ℝ) ≤ (v : ℝ) ∧ (v : ℝ) ≤ 10))
    ∧ ((1 : ℝ) < 10000000000 ∧ 2 ≤ 2
      ∧ ¬ List.Sorted (· < ·) (logspace Extern.real 1 10000000000 2)
      ∧ ¬ (∀ v ∈ logspace Extern.real 1 10000000000 2,
            (1 : ℝ) ≤ (v : ℝ) ∧ (v : ℝ) ≤ 10000000000)) := by
  refine ⟨⟨by norm_num, le_refl 2, ?_⟩, ⟨by norm_num, le_refl 2, ?_, ?_⟩⟩
  · intro hall
    have hmem : (0 : Int) ∈ logspace Extern.real (1 / 2) 10 2 := by
      have hraw : logspaceRaw Extern.real (1 / 2) 10 2
          = [logspaceEntry Extern.real (1 / 2) (logspaceStep Extern.real (1 / 2) 10 2) 0,
             logspaceEntry Extern.real (1 / 2) (logspaceStep Extern.real (1 / 2) 10 2) 1] := by
        rw [logspaceRaw_eq_map]
        rfl
      have h0 : logspaceEntry Extern.real (1 / 2) (logspaceStep Extern.real (1 / 2) 10 2) 0
          = 0 := by
        rw [logspaceEntry_real _ _ _ (by norm_num) (by norm_num)]
        norm_num
      unfold logspace
      rw [hraw, h0]
      simp [unique]
    have := (hall 0 hmem).1
    norm_num at this
  · rw [overflow_example]
    decide
  · rw [overflow_example]
    intro hall
    have := (hall (-2147483648) (by simp)).1
    norm_num at this

/-- C7, as amended.  For `count ≥ 2` and positive `minFreq`, `maxFreq`, whatever the library
functions compute, if every value `x i = minFreq * pow(10, i*step)`, `i < count`,
`step = (log10(maxFreq) - log10(minFreq)) / (count-1)`, satisfies `-2^31 - 1 < x i < 2^31`,
then the divisor `count - 1` is not zero and `logspace(minFreq, maxFreq, count)` is the
sequence of the `x i` truncated toward zero (`⌊x i⌋` for `x i ≥ 0`, `⌈x i⌉` otherwise),
`i = 0 .. count-1`, in which every run of adjacent equal values is collapsed to its first
element; its length is at most `count` and no two adjacent elements are equal. -/
theorem logspace_collapses_runs (m : Extern α) (start stop : α) (num : Nat) (hn : 2 ≤ num)
    (h0 : 0 < start) (h1 : 0 < stop)
    (hrange : ∀ i : Nat, i < num →
      -2147483649 < start * m.pow 10
          ((i : α) * ((m.log10 stop - m.log10 start) / ((num : α) - 1)))
      ∧ start * m.pow 10
          ((i : α) * ((m.log10 stop - m.log10 start) / ((num : α) - 1))) < 2147483648) :
    (num : α) - 1 ≠ 0
    ∧ logspace m start stop num
      = List.destutter (· ≠ ·) ((List.range num).map (fun (i : Nat) =>
          if 0 ≤ start * m.pow 10
              ((i : α) * ((m.log10 stop - m.log10 start) / ((num : α) - 1)))
          then ⌊start * m.pow 10
              ((i : α) * ((m.log10 stop - m.log10 start) / ((num : α) - 1)))⌋
          else ⌈start * m.pow 10
              ((i : α) * ((m.log10 stop - m.log10 start) / ((num : α) - 1)))⌉))
    ∧ (logspace m start stop num).length ≤ num
    ∧ List.Chain' (· ≠ ·) (logspace m start stop num) := by
  have _hdomain : 0 < start ∧ 0 < stop := ⟨h0, h1⟩
  refine ⟨?_, ?_, ?_, unique_chain_ne _⟩
  · have : (2 : α) ≤ (num : α) := by exact_mod_cast hn
    intro h
    linarith
  · unfold logspace
    rw [unique_eq_destutter, logspaceRaw_eq_map, logspaceStep_eq]
    congr 1
    apply List.map_congr_left
    intro i hi
    have hi2 := List.mem_range.mp hi
    exact toInt_of_in_range _ (hrange i hi2).1 (hrange i hi2).2
  · unfold logspace
    calc (unique (logspaceRaw m start stop num)).length
        ≤ (logspaceRaw m start stop num).length := unique_length_le _
      _ = num := by rw [logspaceRaw_eq_map]; simp

/-- Witness of C7 as amended: the call `logspace(1, 2.5, 4)` with the exact real functions,
which computes `[1, 1, 1, 2]` and returns `[1, 2]`: a run of three equal values is
collapsed. -/
theorem logspace_collapses_runs_witness :
    2 ≤ 4 ∧ (0 : ℝ) < 1 ∧ (0 : ℝ) < 5 / 2
    ∧ (∀ i : Nat, i < 4 →
      -2147483649 < (1 : ℝ) * Extern.real.pow 10
          ((i : ℝ) * ((Extern.real.log10 (5 / 2) - Extern.real.log10 1) / (((4 : Nat) : ℝ) - 1)))
      ∧ (1 : ℝ) * Extern.real.pow 10
          ((i : ℝ) * ((Extern.real.log10 (5 / 2) - Extern.real.log10 1) / (((4 : Nat) : ℝ) - 1)))
        < 2147483648)
    ∧ logspaceRaw Extern.real 1 (5 / 2) 4 = [1, 1, 1, 2]
    ∧ logspace Extern.real 1 (5 / 2) 4 = [1, 2]
    ∧ (logspace Extern.real 1 (5 / 2) 4).length ≤ 4
    ∧ List.Chain' (· ≠ ·) (logspace Extern.real 1 (5 / 2) 4) :=
  have hrange : ∀ i : Nat, i < 4 →
      -2147483649 < (1 : ℝ) * Extern.real.pow 10
          ((i : ℝ) * ((Extern.real.log10 (5 / 2) - Extern.real.log10 1) / (((4 : Nat) : ℝ) - 1)))
      ∧ (1 : ℝ) * Extern.real.pow 10
          ((i : ℝ) * ((Extern.real.log10 (5 / 2) - Extern.real.log10 1) / (((4 : Nat) : ℝ) - 1)))
        < 2147483648 := by
    intro i hi
    rw [← logspaceStep_eq, value_real]
    obtain ⟨hlo, hhi⟩ := entry_bounds_real 1 (5 / 2) 4 i (by norm_num) (by norm_num)
      (by norm_num) hi
    constructor <;> linarith
  ⟨by norm_num, by norm_num, by norm_num, hrange, collapse_example.1, collapse_example.2,
   (logspace_collapses_runs Extern.real 1 (5 / 2) 4 (by norm_num) (by norm_num) (by norm_num)
      hrange).2.2⟩

/-- C7 fails as stated: in `logspace(1, 1e10, 2)` the value computed for `i = 1` is `1e10`,
whose truncation is `10000000000`, but the returned sequence is `[1, INT_MIN]`, not the
sequence `[1, 10000000000]` of the truncated values. -/
theorem logspace_value_not_truncation :
    2 ≤ 2
    ∧ logspace Extern.real 1 10000000000 2 = [1, -2147483648]
    ∧ List.destutter (· ≠ ·) ((List.range 2).map (fun (i : Nat) =>
          ⌊(1 : ℝ) * Extern.real.pow 10 ((i : ℝ)
              * ((Extern.real.log10 10000000000 - Extern.real.log10 1) / (((2 : Nat) : ℝ) - 1)))⌋))
        = [1, 10000000000]
    ∧ ¬ (logspace Extern.real 1 10000000000 2
          = List.destutter (· ≠ ·) ((List.range 2).map (fun (i : Nat) =>
              ⌊(1 : ℝ) * Extern.real.pow 10 ((i : ℝ)
                * ((Extern.real.log10 10000000000 - Extern.real.log10 1)
                    / (((2 : Nat) : ℝ) - 1)))⌋))) := by
  have hr := ratio_pow_real 1 10000000000 2 (by norm_num) (by norm_num) (by norm_num)
  have hr1 : ((10 : ℝ) ^ logspaceStep Extern.real 1 10000000000 2) = 10000000000 := by
    simpa using hr
  have hval : (List.range 2).map (fun (i : Nat) =>
        ⌊(1 : ℝ) * Extern.real.pow 10 ((i : ℝ)
            * ((Extern.real.log10 10000000000 - Extern.real.log10 1) / (((2 : Nat) : ℝ) - 1)))⌋)
      = [1, 10000000000] := by
    have hf : (fun (i : Nat) =>
        ⌊(1 : ℝ) * Extern.real.pow 10 ((i : ℝ)
            * ((Extern.real.log10 10000000000 - Extern.real.log10 1) / (((2 : Nat) : ℝ) - 1)))⌋)
        = fun (i : Nat) => ⌊(1 : ℝ) * ((10000000000 : ℝ)) ^ i⌋ := by
      funext i
      rw [← logspaceStep_eq, value_real, hr1]
    rw [hf]
    have h2 : List.range 2 = [0, 1] := rfl
    rw [h2]
    have e0 : ⌊(1 : ℝ)⌋ = 1 := by norm_num
    have e1 : ⌊(10000000000 : ℝ)⌋ = 10000000000 := by
      rw [Int.floor_eq_iff]
      constructor <;> norm_num
    simp only [List.map_cons, List.map_nil, pow_zero, pow_one, one_mul, e0, e1]
  have hdes : List.destutter (· ≠ ·) ([1, 10000000000] : List Int) = [1, 10000000000] := by
    decide
  refine ⟨le_refl 2, overflow_example, by rw [hval, hdes], ?_⟩
  rw [hval, hdes, overflow_example]
  decide

end LogspaceClaims

section MainClaims

variable {α : Type} [LinearOrderedField α] [FloorRing α]

/-- For `logspace(20, 20000, 100)` the ratio between consecutive computed values is at
least `21/20` -/
theorem main_ratio_ge :
    (21 / 20 : ℝ) ≤ (10 : ℝ) ^ logspaceStep Extern.real 20 20000 100 := by
  have hpow := ratio_pow_real 20 20000 100 (by norm_num) (by norm_num) (by norm_num)
  have hpos : (0 : ℝ) < (10 : ℝ) ^ logspaceStep Extern.real 20 20000 100 :=
    Real.rpow_pos_of_pos (by norm_num) _
  by_contra hlt
  push_neg at hlt
  have h1 : ((10 : ℝ) ^ logspaceStep Extern.real 20 20000 100) ^ (100 - 1) < (21 / 20 : ℝ) ^ (100 - 1) :=
    pow_lt_pow_left₀ hlt hpos.le (by norm_num)
  rw [hpow] at h1
  norm_num at h1

theorem main_entry (i : Nat) (hi : i < 100) :
    logspaceEntry Extern.real 20 (logspaceStep Extern.real 20 20000 100) i
      = ⌊(20 : ℝ) * ((10 : ℝ) ^ logspaceStep Extern.real 20 20000 100) ^ i⌋ := by
  apply logspaceEntry_real _ _ _ (by norm_num)
  have := (entry_bounds_real 20 20000 100 i (by norm_num) (by norm_num) (by norm_num) hi).2
  linarith

/-- For `logspace(20, 20000, 100)` the vector before `unique` is already strictly
increasing: consecutive computed values differ by at least `1` -/
theorem main_raw_chain_lt :
    List.Chain' (· < ·) (logspaceRaw Extern.real 20 20000 100) := by
  rw [logspaceRaw_eq_map]
  apply chain'_map_range
  intro i hi
  rw [main_entry i (by omega), main_entry (i + 1) hi]
  have hx := (entry_bounds_real 20 20000 100 i (by norm_num) (by norm_num) (by norm_num)
    (by omega)).1
  have hr := main_ratio_ge
  have hstep : 20 * ((10 : ℝ) ^ logspaceStep Extern.real 20 20000 100) ^ i + 1
      ≤ 20 * ((10 : ℝ) ^ logspaceStep Extern.real 20 20000 100) ^ (i + 1) := by
    rw [pow_succ]
    nlinarith
  have hfl : ⌊20 * ((10 : ℝ) ^ logspaceStep Extern.real 20 20000 100) ^ i⌋ + 1
      ≤ ⌊20 * ((10 : ℝ) ^ logspaceStep Extern.real 20 20000 100) ^ (i + 1)⌋ := by
    rw [← Int.floor_add_one]
    exact Int.floor_le_floor hstep
  omega

theorem main_logspace_eq_raw :
    logspace Extern.real 20 20000 100 = logspaceRaw Extern.real 20 20000 100 :=
  unique_of_chain_lt _ main_raw_chain_lt

theorem main_logspace_length : (logspace Extern.real 20 20000 100).length = 100 := by
  rw [main_logspace_eq_raw, logspaceRaw_eq_map]
  simp

/-- C8, as amended.  For the configured call `logspace(20, 20000, 100)`, in exact real
arithmetic, the computed indices are strictly increasing before deduplication (consecutive
values differ by a factor of at least `1.05`, that is by at least `1`), so `unique` removes
nothing and the returned bucket map has exactly the requested `100` entries. -/
theorem main_logspace_keeps_all_points :
    List.Chain' (· < ·) (logspaceRaw Extern.real 20 20000 REQUESTED_NUMBER_OF_POINTS)
    ∧ logspace Extern.real 20 20000 REQUESTED_NUMBER_OF_POINTS
        = logspaceRaw Extern.real 20 20000 REQUESTED_NUMBER_OF_POINTS
    ∧ (logLinearIndices Extern.real).length = 100 :=
  ⟨main_raw_chain_lt, main_logspace_eq_raw, main_logspace_length⟩

/-- C8 fails as stated: in exact real arithmetic the bucket map returned by
`logspace(20, 20000, 100)` does not have fewer than `100` entries, and no two adjacent
computed indices coincide. -/
theorem main_logspace_not_shorter :
    ¬ ((logLinearIndices Extern.real).length < 100)
    ∧ ¬ (∃ i : Nat, i + 1 < 100
          ∧ (logspaceRaw Extern.real 20 20000 100)[i]?
              = (logspaceRaw Extern.real 20 20000 100)[i + 1]?) := by
  constructor
  · have h : (logLinearIndices Extern.real).length = 100 := main_logspace_length
    omega
  · rintro ⟨i, hi, heq⟩
    have hch := main_raw_chain_lt
    rw [logspaceRaw_eq_map] at hch heq
    rw [List.chain'_map, List.chain'_range_succ] at hch
    have hlt := hch i (by omega)
    rw [List.getElem?_map, List.getElem?_map, List.getElem?_range (by omega),
      List.getElem?_range (by omega)] at heq
    simp only [Option.map_some', Option.some.injEq] at heq
    rw [heq] at hlt
    exact lt_irrefl _ hlt

end MainClaims

section BarClaims

variable {α : Type} [LinearOrderedField α] [FloorRing α]

theorem BarVizualizer.new_bars_length (n : Nat) (width : α) (screenHeight : Int) :
    (BarVizualizer.new n width screenHeight).bars.length = n := by
  simp [BarVizualizer.new, fillLoop_length]

theorem setHeightsStep_eq_some (indices : List Int) (levels : List α)
    (bars : List (RectangleShape α)) (i : Nat) (hb : i < bars.length)
    (hi : i < indices.length)
    (hv : ∀ v ∈ indices, 0 ≤ v ∧ v.toNat < levels.length) :
    ∃ b, setHeightsStep indices levels bars i = some b ∧ b.length = bars.length := by
  obtain ⟨h0, hlt⟩ := hv (indices[i]) (List.getElem_mem hi)
  refine ⟨bars.set i { bars[i] with size := (bars[i].size.1, -levels[(indices[i]).toNat] * 5) },
    ?_, by simp⟩
  simp [setHeightsStep, List.getElem?_eq_getElem hb, List.getElem?_eq_getElem hi, h0,
    List.getElem?_eq_getElem hlt]

theorem setHeights_loop_eq_some (indices : List Int) (levels : List α) (k : Nat)
    (bars : List (RectangleShape α)) (hb : k ≤ bars.length) (hi : k ≤ indices.length)
    (hv : ∀ v ∈ indices, 0 ≤ v ∧ v.toNat < levels.length) :
    ∃ b, (List.range k).foldlM (setHeightsStep indices levels) bars = some b
      ∧ b.length = bars.length := by
  induction k with
  | zero => exact ⟨bars, rfl, rfl⟩
  | succ j ih =>
    obtain ⟨b, hb1, hb2⟩ := ih (by omega) (by omega)
    obtain ⟨c, hc1, hc2⟩ := setHeightsStep_eq_some indices levels b j (by omega) (by omega) hv
    refine ⟨c, ?_, by omega⟩
    rw [List.range_succ, List.foldlM_append, hb1]
    simpa using hc1

theorem main_indices_bounds (v : Int) (hv : v ∈ logLinearIndices Extern.real) :
    20 ≤ v ∧ v ≤ 20000 := by
  obtain ⟨hlo, hhi⟩ := logspace_real_mem_bounds 20 20000 100 (by norm_num) (by norm_num)
    (by norm_num) (by norm_num) v hv
  constructor
  · have h20 : ⌊(20 : ℝ)⌋ = 20 := by norm_num
    omega
  · have : (v : ℝ) ≤ ((20000 : Int) : ℝ) := by
      push_cast
      exact hhi
    exact_mod_cast this

/-- C10.  In the program as configured (bucket map `logspace(20, 20000, 100)` in exact real
arithmetic, `numBars` the length of that map, `levels` of length `22051`), `setHeights`
indexes inside its vectors: `numBars` is the length of both the bucket map and `bars`, so
every `i < numBars` is a valid position in both; every index of the map lies in
`0 .. 22050` (indeed in `20 .. 20000`); and the loop runs to its end with every subscript
in range. -/
theorem setHeights_indexes_in_range (levels : List ℝ) (hlev : levels.length = FFT_OUT_LENGTH) :
    (mainViz Extern.real).numBars = (logLinearIndices Extern.real).length
    ∧ (mainViz Extern.real).bars.length = (mainViz Extern.real).numBars
    ∧ (∀ i : Nat, i < (mainViz Extern.real).numBars →
        i < (logLinearIndices Extern.real).length
        ∧ i < (mainViz Extern.real).bars.length
        ∧ ∃ v, (logLinearIndices Extern.real)[i]? = some v ∧ 0 ≤ v ∧ v < 22051
            ∧ v.toNat < levels.length)
    ∧ ((mainViz Extern.real).setHeights (logLinearIndices Extern.real) levels).isSome := by
  have hnum : (mainViz Extern.real).numBars = (logLinearIndices Extern.real).length := rfl
  have hbars : (mainViz Extern.real).bars.length = (mainViz Extern.real).numBars := by
    rw [hnum]
    exact BarVizualizer.new_bars_length _ _ _
  have hfft : FFT_OUT_LENGTH = 22051 := by decide
  have hv : ∀ v ∈ logLinearIndices Extern.real, 0 ≤ v ∧ v.toNat < levels.length := by
    intro v hv
    obtain ⟨hlo, hhi⟩ := main_indices_bounds v hv
    rw [hlev, hfft]
    omega
  refine ⟨hnum, hbars, ?_, ?_⟩
  · intro i hi
    have hi2 : i < (logLinearIndices Extern.real).length := by rw [← hnum]; exact hi
    refine ⟨hi2, by rw [hbars]; exact hi, (logLinearIndices Extern.real)[i],
      List.getElem?_eq_getElem hi2, ?_⟩
    obtain ⟨hlo, hhi⟩ := main_indices_bounds _ (List.getElem_mem hi2)
    have := (hv _ (List.getElem_mem hi2)).2
    refine ⟨by omega, by omega, this⟩
  · obtain ⟨b, hb1, _⟩ := setHeights_loop_eq_some (logLinearIndices Extern.real) levels
      (mainViz Extern.real).numBars (mainViz Extern.real).bars (by rw [hbars])
      (by rw [hnum]) hv
    unfold BarVizualizer.setHeights
    rw [hb1]
    rfl

/-- Witness of C10: the `levels` of a freshly constructed `SongData`, `22051` zeros. -/
theorem setHeights_indexes_in_range_witness :
    (List.replicate FFT_OUT_LENGTH (0 : ℝ)).length = FFT_OUT_LENGTH
    ∧ ((mainViz Extern.real).setHeights (logLinearIndices Extern.real)
        (List.replicate FFT_OUT_LENGTH (0 : ℝ))).isSome :=
  ⟨List.length_replicate _ _,
   (setHeights_indexes_in_range (List.replicate FFT_OUT_LENGTH (0 : ℝ))
      (List.length_replicate _ _)).2.2.2⟩

end BarClaims

end Viz
